import Mathlib

/-!
Shallow embedding of the image-analysis pipeline in `src/app/utils/analyze.ts`
(grayscale conversion, intensity normalization, histogram / Sobel-edge /
texture features, linear classifier with logistic squashing, and the
local-variance heatmap), together with theorems checking the repository's
specification against it.

Conventions of the embedding:
* a `Uint8ClampedArray` RGBA buffer is a `List Pix` (one entry per pixel,
  4 channels, values `0..255`);
* JavaScript number arithmetic is modelled by exact arithmetic (`ℚ` where the
  source computes with rationally-representable values, `ℝ` where it applies
  `Math.sqrt` / `Math.exp` / `Math.log2` / `Math.pow`);
* `Math.round x` is `⌊x + 1/2⌋`;
* writing a number into a `Uint8ClampedArray` clamps it into `0..255`.
-/

set_option maxRecDepth 100000

namespace CtMri

/-- One RGBA pixel of a `Uint8ClampedArray` buffer (4 consecutive entries). -/
structure Pix where
  r : ℕ
  g : ℕ
  b : ℕ
  a : ℕ
  deriving DecidableEq, Repr, Inhabited

/-- `Math.round` of JavaScript on a rational: round half toward `+∞`. -/
def jsRound (q : ℚ) : ℤ := ⌊q + 1 / 2⌋

/-- Storing an integer into a `Uint8ClampedArray` slot clamps it to `0..255`. -/
def clamp255 (z : ℤ) : ℕ := (max 0 (min 255 z)).toNat

/-- `toGrayscale` of `analyze.ts`: per pixel
`y = Math.round(0.2126*r + 0.7152*g + 0.0722*b)`, stored into all three color
channels, alpha copied. -/
def toGrayscale (data : List Pix) : List Pix :=
  data.map fun p =>
    let y := clamp255 (jsRound (0.2126 * p.r + 0.7152 * p.g + 0.0722 * p.b))
    ⟨y, y, y, p.a⟩

/-- The min-scan of `normalizeIntensity`: `min` starts at `255`, each pixel's
first channel is compared with `if (v < min) min = v`. -/
def minScan (data : List Pix) : ℕ :=
  data.foldl (fun m p => if p.r < m then p.r else m) 255

/-- The max-scan of `normalizeIntensity`: `max` starts at `0`, updated by
`if (v > max) max = v`. -/
def maxScan (data : List Pix) : ℕ :=
  data.foldl (fun m p => if p.r > m then p.r else m) 0

/-- `normalizeIntensity` of `analyze.ts`: affine stretch of the first channel
by `range = Math.max(1, max - min)`, `n = Math.round((y - min)/range * 255)`,
stored into all three color channels, alpha copied. -/
def normalizeIntensity (data : List Pix) : List Pix :=
  let mn := minScan data
  let mx := maxScan data
  let range : ℤ := max 1 ((mx : ℤ) - (mn : ℤ))
  data.map fun p =>
    let n := clamp255 (jsRound (((p.r : ℚ) - (mn : ℚ)) / (range : ℚ) * 255))
    ⟨n, n, n, p.a⟩

/-- `computeHistogram` of `analyze.ts`: 256 bins, bin `i` holds the number of
pixels whose first channel equals `i`, divided by the pixel count. -/
def computeHistogram (data : List Pix) : List ℚ :=
  (List.range 256).map fun i =>
    (((data.map Pix.r).count i : ℚ)) / (data.length : ℚ)

/-- Reading the first channel of pixel `i` of a buffer (the source reads
`gray[(y*width+x)*4]`; with one `Pix` per pixel this is pixel `y*width+x`).
All source reads happen at clamped, in-range indices. -/
def grayAt (data : List Pix) (i : ℤ) : ℤ :=
  ((data.getD i.toNat default).r : ℤ)

/-- The `clamp` helper of `computeSobelEdges`: `Math.max(min, Math.min(max, x))`. -/
def clampZ (x lo hi : ℤ) : ℤ := max lo (min hi x)

/-- The 3×3 kernel offsets `(ky, kx)` in the iteration order of the source
(`ky` outer from `-1` to `1`, `kx` inner from `-1` to `1`). -/
def kOffs : List (ℤ × ℤ) :=
  [(-1, -1), (-1, 0), (-1, 1), (0, -1), (0, 0), (0, 1), (1, -1), (1, 0), (1, 1)]

/-- The `gxKernel` of `computeSobelEdges`, listed in `idx` order. -/
def gxKernel : List ℤ := [-1, 0, 1, -2, 0, 2, -1, 0, 1]

/-- The `gyKernel` of `computeSobelEdges`, listed in `idx` order. -/
def gyKernel : List ℤ := [-1, -2, -1, 0, 0, 0, 1, 2, 1]

/-- The inner kernel loop of `computeSobelEdges` at pixel `(x, y)`: accumulate
`gx += gxKernel[idx]*v` and `gy += gyKernel[idx]*v`, where `v` is the first
channel at the coordinate clamped into `[0, width-1] × [0, height-1]`. -/
def sobelGrads (data : List Pix) (w h : ℕ) (x y : ℕ) : ℤ × ℤ :=
  (kOffs.zip (gxKernel.zip gyKernel)).foldl
    (fun acc e =>
      let px := clampZ ((x : ℤ) + e.1.2) 0 ((w : ℤ) - 1)
      let py := clampZ ((y : ℤ) + e.1.1) 0 ((h : ℤ) - 1)
      let v := grayAt data (py * (w : ℤ) + px)
      (acc.1 + e.2.1 * v, acc.2 + e.2.2 * v))
    (0, 0)

/-- `Math.hypot(gx, gy)` at pixel `(x, y)`. -/
noncomputable def sobelMagAt (data : List Pix) (w h : ℕ) (x y : ℕ) : ℝ :=
  Real.sqrt (((sobelGrads data w h x y).1 : ℝ) ^ 2 + ((sobelGrads data w h x y).2 : ℝ) ^ 2)

/-- `computeSobelEdges` of `analyze.ts`: a `Float32Array` of `width*height`
zeros, filled by the double loop `y = 1 .. height-2`, `x = 1 .. width-2` with
`magnitude[y*width+x] = Math.hypot(gx, gy)`. -/
noncomputable def computeSobelEdges (data : List Pix) (w h : ℕ) : ℕ → ℝ :=
  (List.Ico 1 (h - 1)).foldl
    (fun mag y =>
      (List.Ico 1 (w - 1)).foldl
        (fun mag x => Function.update mag (y * w + x) (sobelMagAt data w h x y))
        mag)
    (fun _ => 0)

/-- The `magnitude` array of `computeSobelEdges` as a list in index order
(the statistics in `analyzeCtVsMri` run over the whole array). -/
noncomputable def sobelList (data : List Pix) (w h : ℕ) : List ℝ :=
  (List.range (w * h)).map (computeSobelEdges data w h)

/-- The unclamped variant of the kernel loop: neighbor coordinates are used
directly, without `clamp`. -/
def sobelGradsU (data : List Pix) (w h : ℕ) (x y : ℕ) : ℤ × ℤ :=
  (kOffs.zip (gxKernel.zip gyKernel)).foldl
    (fun acc e =>
      let px := (x : ℤ) + e.1.2
      let py := (y : ℤ) + e.1.1
      let v := grayAt data (py * (w : ℤ) + px)
      (acc.1 + e.2.1 * v, acc.2 + e.2.2 * v))
    (0, 0)

/-- `Math.hypot` of the unclamped kernel responses. -/
noncomputable def sobelMagAtU (data : List Pix) (w h : ℕ) (x y : ℕ) : ℝ :=
  Real.sqrt (((sobelGradsU data w h x y).1 : ℝ) ^ 2 + ((sobelGradsU data w h x y).2 : ℝ) ^ 2)

/-- `computeSobelEdges` with unclamped neighbor indexing. -/
noncomputable def computeSobelEdgesU (data : List Pix) (w h : ℕ) : ℕ → ℝ :=
  (List.Ico 1 (h - 1)).foldl
    (fun mag y =>
      (List.Ico 1 (w - 1)).foldl
        (fun mag x => Function.update mag (y * w + x) (sobelMagAtU data w h x y))
        mag)
    (fun _ => 0)

/-- `mean` of `analyze.ts`: sum of the values divided by their count. -/
noncomputable def meanL (values : List ℝ) : ℝ :=
  (values.foldl (fun s v => s + v) 0) / (values.length : ℝ)

/-- `std` of `analyze.ts` with the mean passed in: sample standard deviation,
denominator `Math.max(1, n - 1)`. -/
noncomputable def stdL (values : List ℝ) (mu : ℝ) : ℝ :=
  Real.sqrt ((values.foldl (fun s v => s + (v - mu) * (v - mu)) 0) /
    max 1 ((values.length : ℝ) - 1))

/-- One entry of `percentiles` of `analyze.ts`: sort ascending, index at
`Math.min(n-1, Math.max(0, Math.round(p/100 * (n-1))))`. -/
def percentileAt {α : Type} [LinearOrder α] [Inhabited α] (values : List α) (p : ℚ) : α :=
  let arr := values.mergeSort
  let idx : ℤ :=
    min ((arr.length : ℤ) - 1) (max 0 (jsRound (p / 100 * ((arr.length : ℚ) - 1))))
  arr.getD idx.toNat default

/-- `percentiles` of `analyze.ts`. -/
def percentiles {α : Type} [LinearOrder α] [Inhabited α]
    (values : List α) (ps : List ℚ) : List α :=
  ps.map (percentileAt values)

/-- `computeTextureEnergy` of `analyze.ts`: sum of `|dx| + |dy|` of first
differences over `y < height-1`, `x < width-1`, divided by `width*height`. -/
def computeTextureEnergy (data : List Pix) (w h : ℕ) : ℚ :=
  let energy : ℤ :=
    (List.range (h - 1)).foldl
      (fun (e : ℤ) (y : ℕ) =>
        (List.range (w - 1)).foldl
          (fun (e : ℤ) (x : ℕ) =>
            let i := (y : ℤ) * (w : ℤ) + (x : ℤ)
            let dx := grayAt data i - grayAt data (i + 1)
            let dy := grayAt data i - grayAt data (i + (w : ℤ))
            e + |dx| + |dy|)
          e)
      0
  (energy : ℚ) / ((w : ℚ) * (h : ℚ))

/-- `logistic` of `analyze.ts`. -/
noncomputable def logistic (x : ℝ) : ℝ := 1 / (1 + Real.exp (-x))

/-- `hist.reduce((s, p, i) => s + p * i, 0)` of `analyzeCtVsMri`. -/
def histMeanF (hist : List ℚ) : ℚ :=
  hist.enum.foldl (fun s e => s + e.2 * (e.1 : ℚ)) 0

/-- `hist.reduce((s, p, i) => s + p * (i - histMean)^2, 0)` of `analyzeCtVsMri`. -/
def histVarF (hist : List ℚ) : ℚ :=
  let m := histMeanF hist
  hist.enum.foldl (fun s e => s + e.2 * ((e.1 : ℚ) - m) * ((e.1 : ℚ) - m)) 0

/-- `-hist.reduce((s, p) => p > 0 ? s + p * Math.log2(p) : s, 0)` of
`analyzeCtVsMri`. -/
noncomputable def histEntropyF (hist : List ℚ) : ℝ :=
  -(hist.foldl (fun (s : ℝ) (p : ℚ) => if 0 < p then s + (p : ℝ) * Real.logb 2 (p : ℝ) else s) 0)

/-- The nine engineered features of `analyzeCtVsMri`, in declaration order. -/
structure Features where
  histMean : ℚ
  histVar : ℚ
  histEntropy : ℝ
  edgeMean : ℝ
  edgeStd : ℝ
  edgeP50 : ℝ
  edgeP90 : ℝ
  edgeP99 : ℝ
  textureE : ℚ

/-- The feature-extraction part of `analyzeCtVsMri`: grayscale, normalize,
then histogram, Sobel-edge and texture statistics of the normalized buffer. -/
noncomputable def featuresOf (data : List Pix) (w h : ℕ) : Features :=
  let gray := toGrayscale data
  let norm := normalizeIntensity gray
  let hist := computeHistogram norm
  let edges := sobelList norm w h
  { histMean := histMeanF hist
    histVar := histVarF hist
    histEntropy := histEntropyF hist
    edgeMean := meanL edges
    edgeStd := stdL edges (meanL edges)
    edgeP50 := percentileAt edges 50
    edgeP90 := percentileAt edges 90
    edgeP99 := percentileAt edges 99
    textureE := computeTextureEnergy norm w h }

/-- The linear score of `analyzeCtVsMri`: bias `-1.0` plus the weighted
features, added in the key order of the source's `features` object. -/
noncomputable def scoreOf (data : List Pix) (w h : ℕ) : ℝ :=
  let f := featuresOf data w h;
  -1 + (f.histMean : ℝ) * (-0.01) + (f.histVar : ℝ) * (-0.002)
    + f.histEntropy * 0.8 + f.edgeMean * (-0.015) + f.edgeStd * (-0.02)
    + f.edgeP50 * (-0.001) + f.edgeP90 * (-0.0008) + f.edgeP99 * (-0.0005)
    + (f.textureE : ℝ) * (-0.004)

/-- The two output labels of the classifier. -/
inductive Modality where
  | CT : Modality
  | MRI : Modality
  deriving DecidableEq, Repr

/-- The result record of `analyzeCtVsMri`. -/
structure AnalysisResult where
  modality : Modality
  confidence : ℝ
  features : Features

/-- `analyzeCtVsMri` of `analyze.ts` (after the external rasterizer has
produced the `w × h` RGBA buffer `data`): `probMRI = logistic(score)`,
label `MRI` iff `probMRI > 0.5`, confidence is the probability assigned to
the predicted label. -/
noncomputable def analyzeCtVsMri (data : List Pix) (w h : ℕ) : AnalysisResult :=
  let score := scoreOf data w h
  let probMRI := logistic score
  let modality := if probMRI > 0.5 then Modality.MRI else Modality.CT
  { modality := modality
    confidence := if modality = Modality.MRI then probMRI else 1 - probMRI
    features := featuresOf data w h }

/-- The window offsets `-radius .. radius` (`radius = 2`) of the 5×5
local-variance window of `drawGradCAMLikeHeatmap`. -/
def winOffs : List ℤ := [-2, -1, 0, 1, 2]

/-- The `sum`, `sum2`, `count` accumulation of the 5×5 variance window of
`drawGradCAMLikeHeatmap` at pixel `(x, y)`, with window coordinates clamped
by `Math.min(size-1, Math.max(0, ·))`. -/
def varAcc (data : List Pix) (w h : ℕ) (x y : ℕ) : ℤ × ℤ × ℕ :=
  winOffs.foldl
    (fun a dy =>
      winOffs.foldl
        (fun a dx =>
          let xx := min ((w : ℤ) - 1) (max 0 ((x : ℤ) + dx))
          let yy := min ((h : ℤ) - 1) (max 0 ((y : ℤ) + dy))
          let v := grayAt data (yy * (w : ℤ) + xx)
          (a.1 + v, a.2.1 + v * v, a.2.2 + 1))
        a)
    (0, 0, 0)

/-- The local population variance at pixel `(x, y)` in
`drawGradCAMLikeHeatmap`: `sum2/count - (sum/count)^2` over the 5×5 window. -/
def varAt (data : List Pix) (w h : ℕ) (x y : ℕ) : ℚ :=
  let acc := varAcc data w h x y
  let mu : ℚ := (acc.1 : ℚ) / (acc.2.2 : ℚ)
  (acc.2.1 : ℚ) / (acc.2.2 : ℚ) - mu * mu

/-- The `variance` array of `drawGradCAMLikeHeatmap` in index order
(`variance[y*width+x]`, row-major). -/
def varField (data : List Pix) (w h : ℕ) : List ℚ :=
  (List.range h).flatMap fun y => (List.range w).map fun x => varAt data w h x y

/-- The normalization step of `drawGradCAMLikeHeatmap`: scan for min
(initialized `Infinity`) and max (initialized `-Infinity`), then map
`v ↦ (v - min) / Math.max(1e-6, max - min)`. -/
def normField (data : List Pix) (w h : ℕ) : List ℚ :=
  let vf := varField data w h
  let m := vf.minimum.untop' 0
  let M := vf.maximum.unbot' 0
  let rng := max (1 / 1000000) (M - m)
  vf.map fun v => (v - m) / rng

/-- The colormap of `drawGradCAMLikeHeatmap`:
`r = clamp(round(255·v^0.35))`, `g = clamp(round(255·v^1.2·(1-v)))`,
`b = clamp(round(255·(1-v)))`, alpha `180`. `Math.round` on a real is
`⌊x + 1/2⌋` and `Math.pow` on a nonnegative base is `Real.rpow`. -/
noncomputable def colormap (v : ℝ) : Pix :=
  ⟨(max 0 (min 255 (⌊255 * v ^ (0.35 : ℝ) + 1 / 2⌋ : ℤ))).toNat,
   (max 0 (min 255 (⌊255 * v ^ (1.2 : ℝ) * (1 - v) + 1 / 2⌋ : ℤ))).toNat,
   (max 0 (min 255 (⌊255 * (1 - v) + 1 / 2⌋ : ℤ))).toNat,
   180⟩

/-- `drawGradCAMLikeHeatmap` of `analyze.ts` as a buffer transformation:
local variance, global min-max normalization, colormap. -/
noncomputable def drawGradCAMLikeHeatmap (data : List Pix) (w h : ℕ) : List Pix :=
  (normField data w h).map fun (q : ℚ) => colormap (q : ℝ)

/-! ### General helper lemmas -/

lemma listRange_map_sum {M : Type} [AddCommMonoid M] (n : ℕ) (f : ℕ → M) :
    ((List.range n).map f).sum = ∑ i in Finset.range n, f i := by
  induction n with
  | zero => simp
  | succ k ih =>
    rw [List.range_succ, Finset.sum_range_succ, List.map_append, List.sum_append, ih]
    simp

lemma foldl_add_eq {α M : Type} [AddCommMonoid M] (g : α → M) :
    ∀ (l : List α) (init : M), l.foldl (fun s x => s + g x) init = init + (l.map g).sum
  | [], init => by simp
  | a :: l, init => by
    rw [List.foldl_cons, foldl_add_eq g l (init + g a), List.map_cons, List.sum_cons, add_assoc]

lemma foldl_congr_mem {α β : Type} {f g : β → α → β} :
    ∀ (l : List α) (b : β), (∀ b' a, a ∈ l → f b' a = g b' a) → l.foldl f b = l.foldl g b
  | [], _, _ => rfl
  | a :: l, b, h => by
    rw [List.foldl_cons, List.foldl_cons, h b a (l.mem_cons_self a)]
    exact foldl_congr_mem l _ fun b' x hx => h b' x (List.mem_cons_of_mem a hx)

lemma jsRound_nonneg {q : ℚ} (h : 0 ≤ q) : 0 ≤ jsRound q := by
  have : (0 : ℚ) ≤ q + 1 / 2 := by linarith
  exact Int.floor_nonneg.mpr this

lemma jsRound_le_255 {q : ℚ} (h : q ≤ 255) : jsRound q ≤ 255 := by
  have h2 : q + 1 / 2 < 256 := by linarith
  have h3 : jsRound q < 256 := Int.floor_lt.mpr (by exact_mod_cast h2)
  omega

lemma jsRound_mono {p q : ℚ} (h : p ≤ q) : jsRound p ≤ jsRound q :=
  Int.floor_le_floor (by linarith)

lemma clamp255_coe {z : ℤ} (h0 : 0 ≤ z) (h1 : z ≤ 255) : (clamp255 z : ℤ) = z := by
  unfold clamp255
  rw [Int.toNat_of_nonneg (by omega)]
  omega

lemma clamp255_le (z : ℤ) : clamp255 z ≤ 255 := by
  unfold clamp255
  omega

/-! ### C8: grayscale invariant -/

/-- The per-pixel grayscale value before clamping is in `[0, 255]` for a
well-formed pixel, so the `Uint8ClampedArray` store does not clamp. -/
lemma gray_luma_bounds {p : Pix} (hr : p.r ≤ 255) (hg : p.g ≤ 255) (hb : p.b ≤ 255) :
    0 ≤ jsRound (0.2126 * p.r + 0.7152 * p.g + 0.0722 * p.b) ∧
      jsRound (0.2126 * p.r + 0.7152 * p.g + 0.0722 * p.b) ≤ 255 := by
  have h0 : (0 : ℚ) ≤ 0.2126 * p.r + 0.7152 * p.g + 0.0722 * p.b := by positivity
  have h1 : (0.2126 : ℚ) * p.r + 0.7152 * p.g + 0.0722 * p.b ≤ 255 := by
    have hr' : (p.r : ℚ) ≤ 255 := by exact_mod_cast hr
    have hg' : (p.g : ℚ) ≤ 255 := by exact_mod_cast hg
    have hb' : (p.b : ℚ) ≤ 255 := by exact_mod_cast hb
    nlinarith
  exact ⟨jsRound_nonneg h0, jsRound_le_255 h1⟩

/-- C8: for every well-formed RGBA buffer, every pixel of the output of
`toGrayscale` has `R == G == B == round(0.2126·R + 0.7152·G + 0.0722·B)` and
its alpha channel unchanged from the input. -/
theorem toGrayscale_invariant (data : List Pix)
    (hwf : ∀ p ∈ data, p.r ≤ 255 ∧ p.g ≤ 255 ∧ p.b ≤ 255) :
    (toGrayscale data).length = data.length ∧
      ∀ i, i < data.length →
        let p := data.getD i default
        let q := (toGrayscale data).getD i default
        q.r = q.g ∧ q.g = q.b ∧
          (q.r : ℤ) = jsRound (0.2126 * p.r + 0.7152 * p.g + 0.0722 * p.b) ∧
          q.a = p.a := by
  refine ⟨by simp [toGrayscale], fun i hi => ?_⟩
  have hlen : i < (toGrayscale data).length := by simpa [toGrayscale]
  have hp : data.getD i default = data[i] := List.getD_eq_getElem data default hi
  have hq : (toGrayscale data).getD i default = (toGrayscale data)[i] :=
    List.getD_eq_getElem _ default hlen
  have hmap : (toGrayscale data)[i] =
      (fun p : Pix =>
        let y := clamp255 (jsRound (0.2126 * p.r + 0.7152 * p.g + 0.0722 * p.b))
        (⟨y, y, y, p.a⟩ : Pix)) data[i] := by
    simp [toGrayscale]
  obtain ⟨hr, hg, hb⟩ := hwf data[i] (data.getElem_mem hi)
  obtain ⟨h0, h1⟩ := gray_luma_bounds hr hg hb
  rw [hq, hp, hmap]
  exact ⟨rfl, rfl, clamp255_coe h0 h1, rfl⟩

/-- Witness for C8 at a concrete pixel buffer. -/
theorem toGrayscale_invariant_witness :
    (∀ p ∈ [(⟨10, 20, 30, 40⟩ : Pix)], p.r ≤ 255 ∧ p.g ≤ 255 ∧ p.b ≤ 255) ∧
      ((toGrayscale [(⟨10, 20, 30, 40⟩ : Pix)]).length = [(⟨10, 20, 30, 40⟩ : Pix)].length ∧
        ∀ i, i < [(⟨10, 20, 30, 40⟩ : Pix)].length →
          let p := [(⟨10, 20, 30, 40⟩ : Pix)].getD i default
          let q := (toGrayscale [(⟨10, 20, 30, 40⟩ : Pix)]).getD i default
          q.r = q.g ∧ q.g = q.b ∧
            (q.r : ℤ) = jsRound (0.2126 * p.r + 0.7152 * p.g + 0.0722 * p.b) ∧
            q.a = p.a) :=
  ⟨by decide, toGrayscale_invariant [⟨10, 20, 30, 40⟩] (by decide)⟩

/-! ### C2: normalization range -/

lemma minScan_fold_le_init :
    ∀ (l : List Pix) (a : ℕ), l.foldl (fun m p => if p.r < m then p.r else m) a ≤ a
  | [], _ => le_refl _
  | x :: l, a => by
    rw [List.foldl_cons]
    refine le_trans (minScan_fold_le_init l _) ?_
    split <;> omega

lemma minScan_fold_le_mem {p : Pix} :
    ∀ (l : List Pix) (a : ℕ), p ∈ l →
      l.foldl (fun m q => if q.r < m then q.r else m) a ≤ p.r
  | x :: l, a, hmem => by
    rw [List.foldl_cons]
    rcases List.mem_cons.mp hmem with h | h
    · subst h
      refine le_trans (minScan_fold_le_init l _) ?_
      split <;> omega
    · exact minScan_fold_le_mem l _ h

lemma minScan_fold_cases :
    ∀ (l : List Pix) (a : ℕ),
      l.foldl (fun m p => if p.r < m then p.r else m) a = a ∨
        ∃ p ∈ l, l.foldl (fun m p => if p.r < m then p.r else m) a = p.r
  | [], a => Or.inl rfl
  | x :: l, a => by
    rw [List.foldl_cons]
    rcases minScan_fold_cases l (if x.r < a then x.r else a) with h | ⟨p, hp, h⟩
    · by_cases hc : x.r < a
      · exact Or.inr ⟨x, List.mem_cons_self x l, by rw [h]; simp [hc]⟩
      · exact Or.inl (by rw [h]; simp [hc])
    · exact Or.inr ⟨p, List.mem_cons_of_mem x hp, h⟩

lemma maxScan_fold_init_le :
    ∀ (l : List Pix) (a : ℕ), a ≤ l.foldl (fun m p => if p.r > m then p.r else m) a
  | [], _ => le_refl _
  | x :: l, a => by
    rw [List.foldl_cons]
    refine le_trans ?_ (maxScan_fold_init_le l _)
    split <;> omega

lemma maxScan_fold_mem_le {p : Pix} :
    ∀ (l : List Pix) (a : ℕ), p ∈ l →
      p.r ≤ l.foldl (fun m q => if q.r > m then q.r else m) a
  | x :: l, a, hmem => by
    rw [List.foldl_cons]
    rcases List.mem_cons.mp hmem with h | h
    · subst h
      refine le_trans ?_ (maxScan_fold_init_le l _)
      split <;> omega
    · exact maxScan_fold_mem_le l _ h

lemma maxScan_fold_cases :
    ∀ (l : List Pix) (a : ℕ),
      l.foldl (fun m p => if p.r > m then p.r else m) a = a ∨
        ∃ p ∈ l, l.foldl (fun m p => if p.r > m then p.r else m) a = p.r
  | [], a => Or.inl rfl
  | x :: l, a => by
    rw [List.foldl_cons]
    rcases maxScan_fold_cases l (if x.r > a then x.r else a) with h | ⟨p, hp, h⟩
    · by_cases hc : x.r > a
      · exact Or.inr ⟨x, List.mem_cons_self x l, by rw [h]; simp [hc]⟩
      · exact Or.inl (by rw [h]; simp [hc])
    · exact Or.inr ⟨p, List.mem_cons_of_mem x hp, h⟩

/-- The min-scan is attained on a nonempty buffer of well-formed pixels. -/
lemma minScan_attained {data : List Pix} (hne : data ≠ [])
    (hwf : ∀ p ∈ data, p.r ≤ 255) : ∃ p ∈ data, minScan data = p.r := by
  rcases minScan_fold_cases data 255 with h | h
  · obtain ⟨q, hq⟩ := List.exists_mem_of_ne_nil data hne
    refine ⟨q, hq, ?_⟩
    have h1 := minScan_fold_le_mem data 255 hq
    have h2 := hwf q hq
    unfold minScan at *
    omega
  · exact h

/-- The max-scan is attained on a nonempty buffer. -/
lemma maxScan_attained {data : List Pix} (hne : data ≠ []) :
    ∃ p ∈ data, maxScan data = p.r := by
  rcases maxScan_fold_cases data 0 with h | h
  · obtain ⟨q, hq⟩ := List.exists_mem_of_ne_nil data hne
    refine ⟨q, hq, ?_⟩
    have h1 := maxScan_fold_mem_le data 0 hq
    unfold maxScan at *
    omega
  · exact h

lemma jsRound_zero : jsRound 0 = 0 := by
  unfold jsRound
  exact Int.floor_eq_iff.mpr (by norm_num)

lemma jsRound_255 : jsRound 255 = 255 := by
  unfold jsRound
  exact Int.floor_eq_iff.mpr (by norm_num)

/-- C2: after `normalizeIntensity` the minimum output luma is `0` and the
maximum is `255` for a non-constant buffer; a constant buffer maps to all
zeros (`range = max(1, max-min)`); alpha is preserved per pixel. -/
theorem normalizeIntensity_range (data : List Pix) (hne : data ≠ [])
    (hwf : ∀ p ∈ data, p.r ≤ 255) :
    (normalizeIntensity data).map Pix.a = data.map Pix.a ∧
      ((∃ p ∈ data, ∃ q ∈ data, p.r ≠ q.r) →
        0 ∈ (normalizeIntensity data).map Pix.r ∧
          255 ∈ (normalizeIntensity data).map Pix.r ∧
          ∀ v ∈ (normalizeIntensity data).map Pix.r, v ≤ 255) ∧
      ((∀ p ∈ data, ∀ q ∈ data, p.r = q.r) → ∀ q ∈ normalizeIntensity data, q.r = 0) := by
  have hle : ∀ t ∈ data, minScan data ≤ t.r := fun t ht => minScan_fold_le_mem data 255 ht
  have hge : ∀ t ∈ data, t.r ≤ maxScan data := fun t ht => maxScan_fold_mem_le data 0 ht
  refine ⟨?_, ?_, ?_⟩
  · simp [normalizeIntensity, List.map_map, Function.comp]
  · rintro ⟨p, hp, q, hq, hneq⟩
    obtain ⟨p₀, hp₀, hmn⟩ := minScan_attained hne hwf
    obtain ⟨p₁, hp₁, hmx⟩ := maxScan_attained hne
    have hlt : minScan data < maxScan data := by
      have h1 := hle p hp
      have h2 := hge p hp
      have h3 := hle q hq
      have h4 := hge q hq
      omega
    have hrange : (max 1 ((maxScan data : ℤ) - (minScan data : ℤ))) =
        (maxScan data : ℤ) - (minScan data : ℤ) := by omega
    refine ⟨?_, ?_, ?_⟩
    · have hv : ((p₀.r : ℚ) - (minScan data : ℚ)) /
          ((max 1 ((maxScan data : ℤ) - (minScan data : ℤ)) : ℤ) : ℚ) * 255 = 0 := by
        rw [hmn]
        simp
      refine List.mem_map.mpr ⟨_, List.mem_map_of_mem _ hp₀, ?_⟩
      show clamp255 (jsRound _) = 0
      rw [hv, jsRound_zero]
      rfl
    · have hden : ((max 1 ((maxScan data : ℤ) - (minScan data : ℤ)) : ℤ) : ℚ) ≠ 0 := by
        rw [hrange]
        have h5 : (minScan data : ℚ) < (maxScan data : ℚ) := by exact_mod_cast hlt
        push_cast
        linarith
      have hv : ((p₁.r : ℚ) - (minScan data : ℚ)) /
          ((max 1 ((maxScan data : ℤ) - (minScan data : ℤ)) : ℤ) : ℚ) * 255 = 255 := by
        have hq : (p₁.r : ℚ) = (maxScan data : ℚ) := by exact_mod_cast hmx.symm
        rw [hq, div_mul_eq_mul_div, div_eq_iff hden, hrange]
        push_cast
        ring
      refine List.mem_map.mpr ⟨_, List.mem_map_of_mem _ hp₁, ?_⟩
      show clamp255 (jsRound _) = 255
      rw [hv, jsRound_255]
      rfl
    · intro v hv
      obtain ⟨t, htmem, ht⟩ := List.mem_map.mp hv
      obtain ⟨u, humem, hu⟩ := List.mem_map.mp htmem
      rw [← ht, ← hu]
      exact clamp255_le _
  · intro hall t ht
    obtain ⟨u, hu, hut⟩ := List.mem_map.mp ht
    obtain ⟨p₀, hp₀, hmn⟩ := minScan_attained hne hwf
    obtain ⟨p₁, hp₁, hmx⟩ := maxScan_attained hne
    have h1 : minScan data = u.r := by rw [hmn]; exact hall p₀ hp₀ u hu
    have h2 : maxScan data = u.r := by rw [hmx]; exact hall p₁ hp₁ u hu
    have hv : ((u.r : ℚ) - (minScan data : ℚ)) /
        ((max 1 ((maxScan data : ℤ) - (minScan data : ℤ)) : ℤ) : ℚ) * 255 = 0 := by
      rw [h1]
      simp
    rw [← hut]
    show clamp255 (jsRound _) = 0
    rw [hv, jsRound_zero]
    rfl

/-- A small concrete non-constant two-pixel buffer. -/
def pixList2 : List Pix := [⟨10, 10, 10, 1⟩, ⟨20, 20, 20, 2⟩]

/-- Witness for C2 at a concrete non-constant buffer. -/
theorem normalizeIntensity_range_witness :
    pixList2 ≠ [] ∧ (∀ p ∈ pixList2, p.r ≤ 255) ∧
      ((normalizeIntensity pixList2).map Pix.a = pixList2.map Pix.a ∧
        ((∃ p ∈ pixList2, ∃ q ∈ pixList2, p.r ≠ q.r) →
          0 ∈ (normalizeIntensity pixList2).map Pix.r ∧
            255 ∈ (normalizeIntensity pixList2).map Pix.r ∧
            ∀ v ∈ (normalizeIntensity pixList2).map Pix.r, v ≤ 255) ∧
        ((∀ p ∈ pixList2, ∀ q ∈ pixList2, p.r = q.r) →
          ∀ q ∈ normalizeIntensity pixList2, q.r = 0)) :=
  ⟨by decide, by decide, normalizeIntensity_range pixList2 (by decide) (by decide)⟩

/-! ### C6: the histogram is a probability vector -/

lemma sum_count_eq_length (lr : List ℕ) (h : ∀ v ∈ lr, v < 256) :
    ∑ i in Finset.range 256, lr.count i = lr.length := by
  induction lr with
  | nil => simp
  | cons a t ih =>
    have ha : a ∈ Finset.range 256 :=
      Finset.mem_range.mpr (h a (t.mem_cons_self a))
    have ih' := ih fun v hv => h v (List.mem_cons_of_mem a hv)
    have hstep : ∑ i in Finset.range 256, (a :: t).count i
        = ∑ i in Finset.range 256, (t.count i + if a = i then 1 else 0) :=
      Finset.sum_congr rfl fun i _ => by rw [List.count_cons]; simp
    rw [hstep, Finset.sum_add_distrib, ih',
      Finset.sum_ite_eq (Finset.range 256) a fun _ => 1, List.length_cons]
    simp [ha]

lemma computeHistogram_sum_eq_one {data : List Pix} (hne : data ≠ [])
    (hwf : ∀ p ∈ data, p.r < 256) : (computeHistogram data).sum = 1 := by
  unfold computeHistogram
  rw [listRange_map_sum]
  rw [← Finset.sum_div]
  have hcount : ∑ i in Finset.range 256, ((data.map Pix.r).count i : ℚ) =
      ((∑ i in Finset.range 256, (data.map Pix.r).count i : ℕ) : ℚ) := by
    push_cast
    rfl
  rw [hcount, sum_count_eq_length (data.map Pix.r)
    (fun v hv => by
      obtain ⟨p, hp, hpv⟩ := List.mem_map.mp hv
      exact hpv ▸ hwf p hp)]
  rw [List.length_map]
  have : (data.length : ℚ) ≠ 0 := by
    simpa using List.length_pos.mpr hne |>.ne'
  field_simp

/-- C6: for every non-empty well-formed image buffer, the normalized
histogram entries are nonnegative and sum to `1` within `1e-9` (in fact the
sum is exactly `1` in exact arithmetic). -/
theorem computeHistogram_prob (data : List Pix) (hne : data ≠ [])
    (hwf : ∀ p ∈ data, p.r < 256) :
    |(computeHistogram data).sum - 1| ≤ 1 / 1000000000 ∧
      ∀ q ∈ computeHistogram data, 0 ≤ q := by
  refine ⟨?_, ?_⟩
  · rw [computeHistogram_sum_eq_one hne hwf]
    norm_num
  · intro q hq
    obtain ⟨i, _, hiq⟩ := List.mem_map.mp hq
    rw [← hiq]
    positivity

/-- Witness for C6 at a concrete one-pixel buffer. -/
theorem computeHistogram_prob_witness :
    ([(⟨0, 0, 0, 255⟩ : Pix)] ≠ ([] : List Pix)) ∧
      (∀ p ∈ [(⟨0, 0, 0, 255⟩ : Pix)], p.r < 256) ∧
      (|(computeHistogram [(⟨0, 0, 0, 255⟩ : Pix)]).sum - 1| ≤ 1 / 1000000000 ∧
        ∀ q ∈ computeHistogram [(⟨0, 0, 0, 255⟩ : Pix)], 0 ≤ q) :=
  ⟨by decide, by decide, computeHistogram_prob [⟨0, 0, 0, 255⟩] (by decide) (by decide)⟩

/-! ### C10: percentile statistics are monotone in the percentile -/

lemma percentileAt_def {α : Type} [LinearOrder α] [Inhabited α] (vs : List α) (p : ℚ) :
    percentileAt vs p = (vs.mergeSort).getD
      (min ((vs.mergeSort.length : ℤ) - 1)
        (max 0 (jsRound (p / 100 * ((vs.mergeSort.length : ℚ) - 1))))).toNat default := rfl

lemma percentileAt_mono {α : Type} [LinearOrder α] [Inhabited α] (vs : List α)
    (p q : ℚ) (hpq : p ≤ q) : percentileAt vs p ≤ percentileAt vs q := by
  by_cases harr : vs.mergeSort = []
  · rw [percentileAt_def, percentileAt_def, harr]
    exact le_refl _
  · have hpos : 0 < vs.mergeSort.length := List.length_pos.mpr harr
    have hn0 : (1 : ℤ) ≤ (vs.mergeSort.length : ℤ) := by exact_mod_cast hpos
    have hn1 : (0 : ℚ) ≤ (vs.mergeSort.length : ℚ) - 1 := by
      have h1 : (1 : ℚ) ≤ (vs.mergeSort.length : ℚ) := by exact_mod_cast hpos
      linarith
    have hval : p / 100 * ((vs.mergeSort.length : ℚ) - 1) ≤
        q / 100 * ((vs.mergeSort.length : ℚ) - 1) := by
      have h2 : p / 100 ≤ q / 100 := by linarith
      exact mul_le_mul_of_nonneg_right h2 hn1
    have hidx := jsRound_mono hval
    have hmle : (min ((vs.mergeSort.length : ℤ) - 1)
          (max 0 (jsRound (p / 100 * ((vs.mergeSort.length : ℚ) - 1))))).toNat ≤
        (min ((vs.mergeSort.length : ℤ) - 1)
          (max 0 (jsRound (q / 100 * ((vs.mergeSort.length : ℚ) - 1))))).toNat := by
      apply Int.toNat_le_toNat
      omega
    have hltq : (min ((vs.mergeSort.length : ℤ) - 1)
        (max 0 (jsRound (q / 100 * ((vs.mergeSort.length : ℚ) - 1))))).toNat <
          vs.mergeSort.length := by omega
    have hltp : (min ((vs.mergeSort.length : ℤ) - 1)
        (max 0 (jsRound (p / 100 * ((vs.mergeSort.length : ℚ) - 1))))).toNat <
          vs.mergeSort.length := by omega
    rw [percentileAt_def, percentileAt_def,
      List.getD_eq_getElem _ _ hltp, List.getD_eq_getElem _ _ hltq]
    exact (List.sorted_mergeSort' vs).rel_get_of_le hmle

/-- C10: the percentile statistics are monotone in the requested percentile:
`percentiles` at `[50, 90, 99]` returns a non-decreasing triple, and in
particular `edgeP50 ≤ edgeP90 ≤ edgeP99` in the feature vector of
`analyzeCtVsMri`. -/
theorem percentiles_monotone :
    (∀ vs : List ℝ, ∀ a b c : ℝ,
      percentiles vs [50, 90, 99] = [a, b, c] → a ≤ b ∧ b ≤ c) ∧
      ∀ (data : List Pix) (w h : ℕ),
        (featuresOf data w h).edgeP50 ≤ (featuresOf data w h).edgeP90 ∧
          (featuresOf data w h).edgeP90 ≤ (featuresOf data w h).edgeP99 := by
  constructor
  · intro vs a b c hlist
    rw [show percentiles vs [50, 90, 99] =
        [percentileAt vs 50, percentileAt vs 90, percentileAt vs 99] from rfl] at hlist
    simp only [List.cons.injEq, and_true] at hlist
    obtain ⟨h1, h2, h3⟩ := hlist
    rw [← h1, ← h2, ← h3]
    exact ⟨percentileAt_mono vs 50 90 (by norm_num),
      percentileAt_mono vs 90 99 (by norm_num)⟩
  · intro data w h
    exact ⟨percentileAt_mono _ 50 90 (by norm_num),
      percentileAt_mono _ 90 99 (by norm_num)⟩

/-- Witness for C10: the triple returned by `percentiles` on a concrete list
is non-decreasing. -/
theorem percentiles_monotone_witness :
    percentileAt ([3, 1, 2] : List ℝ) 50 ≤ percentileAt ([3, 1, 2] : List ℝ) 90 ∧
      percentileAt ([3, 1, 2] : List ℝ) 90 ≤ percentileAt ([3, 1, 2] : List ℝ) 99 :=
  percentiles_monotone.1 [3, 1, 2] _ _ _ rfl

/-! ### C4 and C9: Sobel edge field -/

lemma foldl_update_row {β : Type} (w y : ℕ) (g : ℕ → β) :
    ∀ (xs : List ℕ) (m : ℕ → β) (j : ℕ),
      (xs.foldl (fun m x => Function.update m (y * w + x) (g x)) m) j =
        if ∃ x ∈ xs, j = y * w + x then g (j - y * w) else m j
  | [], m, j => by simp
  | x₀ :: xs, m, j => by
    rw [List.foldl_cons, foldl_update_row w y g xs _ j]
    by_cases h1 : ∃ x ∈ xs, j = y * w + x
    · rw [if_pos h1, if_pos]
      obtain ⟨x, hx, rfl⟩ := h1
      exact ⟨x, List.mem_cons_of_mem x₀ hx, rfl⟩
    · rw [if_neg h1]
      by_cases h2 : j = y * w + x₀
      · subst h2
        rw [Function.update_same, if_pos ⟨x₀, List.mem_cons_self x₀ xs, rfl⟩,
          Nat.add_sub_cancel_left]
      · rw [Function.update_noteq h2, if_neg]
        rintro ⟨x, hx, rfl⟩
        rcases List.mem_cons.mp hx with rfl | hx'
        · exact h2 rfl
        · exact h1 ⟨x, hx', rfl⟩

lemma foldl_update_grid {β : Type} (w : ℕ) (f : ℕ → ℕ → β) (xs : List ℕ)
    (hxs : ∀ x ∈ xs, x < w) :
    ∀ (ys : List ℕ) (m0 : ℕ → β) (j : ℕ),
      (ys.foldl (fun m y =>
          xs.foldl (fun m x => Function.update m (y * w + x) (f x y)) m) m0) j =
        if ∃ y ∈ ys, ∃ x ∈ xs, j = y * w + x then f (j % w) (j / w) else m0 j
  | [], m0, j => by simp
  | y₀ :: ys, m0, j => by
    rw [List.foldl_cons, foldl_update_grid w f xs hxs ys _ j]
    by_cases h1 : ∃ y ∈ ys, ∃ x ∈ xs, j = y * w + x
    · rw [if_pos h1, if_pos]
      obtain ⟨y, hy, hrest⟩ := h1
      exact ⟨y, List.mem_cons_of_mem y₀ hy, hrest⟩
    · rw [if_neg h1, foldl_update_row w y₀ (fun x => f x y₀) xs m0 j]
      by_cases h2 : ∃ x ∈ xs, j = y₀ * w + x
      · rw [if_pos h2]
        obtain ⟨x, hx, rfl⟩ := h2
        have hxw := hxs x hx
        have hw0 : 0 < w := lt_of_le_of_lt (Nat.zero_le x) hxw
        have hmod : (y₀ * w + x) % w = x := by
          rw [Nat.mul_comm y₀ w, Nat.mul_add_mod, Nat.mod_eq_of_lt hxw]
        have hdiv : (y₀ * w + x) / w = y₀ := by
          rw [Nat.mul_comm y₀ w, Nat.mul_add_div hw0, Nat.div_eq_of_lt hxw, Nat.add_zero]
        rw [if_pos ⟨y₀, List.mem_cons_self y₀ ys, x, hx, rfl⟩, hmod, hdiv,
          Nat.add_sub_cancel_left]
      · rw [if_neg h2, if_neg]
        rintro ⟨y, hy, x, hx, rfl⟩
        rcases List.mem_cons.mp hy with rfl | hy'
        · exact h2 ⟨x, hx, rfl⟩
        · exact h1 ⟨y, hy', x, hx, rfl⟩

/-- Closed form of the `computeSobelEdges` double loop: the border ring of
the output stays `0`, interior pixels get `Math.hypot` of the clamped kernel
responses. -/
lemma computeSobelEdges_spec (data : List Pix) (w h : ℕ) (x y : ℕ)
    (hx : x < w) (hy : y < h) :
    computeSobelEdges data w h (y * w + x) =
      if 1 ≤ x ∧ x + 1 < w ∧ 1 ≤ y ∧ y + 1 < h then sobelMagAt data w h x y else 0 := by
  have hxs : ∀ x' ∈ List.Ico 1 (w - 1), x' < w := fun x' hx' => by
    have := List.Ico.mem.mp hx'
    omega
  have hchar : computeSobelEdges data w h (y * w + x) =
      if ∃ yy ∈ List.Ico 1 (h - 1), ∃ xx ∈ List.Ico 1 (w - 1), y * w + x = yy * w + xx then
        (fun a b => sobelMagAt data w h a b) ((y * w + x) % w) ((y * w + x) / w)
      else (fun _ : ℕ => (0 : ℝ)) (y * w + x) :=
    foldl_update_grid w (fun a b => sobelMagAt data w h a b) (List.Ico 1 (w - 1)) hxs
      (List.Ico 1 (h - 1)) (fun _ => 0) (y * w + x)
  have hw0 : 0 < w := lt_of_le_of_lt (Nat.zero_le x) hx
  have hmod : (y * w + x) % w = x := by
    rw [Nat.mul_comm y w, Nat.mul_add_mod, Nat.mod_eq_of_lt hx]
  have hdiv : (y * w + x) / w = y := by
    rw [Nat.mul_comm y w, Nat.mul_add_div hw0, Nat.div_eq_of_lt hx, Nat.add_zero]
  rw [hchar]
  by_cases hint : 1 ≤ x ∧ x + 1 < w ∧ 1 ≤ y ∧ y + 1 < h
  · rw [if_pos, if_pos hint, hmod, hdiv]
    exact ⟨y, List.Ico.mem.mpr (by omega), x, List.Ico.mem.mpr (by omega), rfl⟩
  · rw [if_neg, if_neg hint]
    rintro ⟨yy, hyy, xx, hxx, heq⟩
    have hyy' := List.Ico.mem.mp hyy
    have hxx' := List.Ico.mem.mp hxx
    have hxxw : xx < w := by omega
    have hxeq : x = xx := by
      have h1 : (y * w + x) % w = x := hmod
      have h2 : (yy * w + xx) % w = xx := by
        rw [Nat.mul_comm yy w, Nat.mul_add_mod, Nat.mod_eq_of_lt hxxw]
      rw [heq] at h1
      omega
    have hyeq : y = yy := by
      have h1 : (y * w + x) / w = y := hdiv
      have h2 : (yy * w + xx) / w = yy := by
        rw [Nat.mul_comm yy w, Nat.mul_add_div hw0, Nat.div_eq_of_lt hxxw, Nat.add_zero]
      rw [heq] at h1
      omega
    exact hint (by omega)

/-- C4: `computeSobelEdges` leaves the output border ring at `0` and sets
every interior pixel to `hypot(gx, gy)` of the 3×3 Sobel kernel responses
with edge-replicate (clamped) neighbor sampling. -/
theorem computeSobelEdges_border_interior (data : List Pix) (w h : ℕ) (x y : ℕ)
    (hx : x < w) (hy : y < h) :
    computeSobelEdges data w h (y * w + x) =
      if 1 ≤ x ∧ x + 1 < w ∧ 1 ≤ y ∧ y + 1 < h then
        Real.sqrt (((sobelGrads data w h x y).1 : ℝ) ^ 2 +
          ((sobelGrads data w h x y).2 : ℝ) ^ 2)
      else 0 :=
  computeSobelEdges_spec data w h x y hx hy

/-- Witness for C4 at a concrete interior pixel of a 3×3 buffer. -/
theorem computeSobelEdges_border_interior_witness :
    1 < 3 ∧ 1 < 3 ∧
      computeSobelEdges [] 3 3 (1 * 3 + 1) =
        (if 1 ≤ 1 ∧ 1 + 1 < 3 ∧ 1 ≤ 1 ∧ 1 + 1 < 3 then
          Real.sqrt (((sobelGrads [] 3 3 1 1).1 : ℝ) ^ 2 +
            ((sobelGrads [] 3 3 1 1).2 : ℝ) ^ 2)
        else 0) :=
  ⟨by decide, by decide,
    computeSobelEdges_border_interior [] 3 3 1 1 (by decide) (by decide)⟩

/-- Inside the loop's interior range the coordinate clamp is inactive, so the
clamped and unclamped kernel responses agree. -/
lemma sobelGrads_eq_unclamped (data : List Pix) (w h : ℕ) (x y : ℕ)
    (hx1 : 1 ≤ x) (hx2 : x + 1 < w) (hy1 : 1 ≤ y) (hy2 : y + 1 < h) :
    sobelGrads data w h x y = sobelGradsU data w h x y := by
  unfold sobelGrads sobelGradsU
  apply foldl_congr_mem
  intro acc e he
  have hall : ∀ e' ∈ kOffs.zip (gxKernel.zip gyKernel),
      -1 ≤ e'.1.1 ∧ e'.1.1 ≤ 1 ∧ -1 ≤ e'.1.2 ∧ e'.1.2 ≤ 1 := by decide
  obtain ⟨hb1, hb2, hb3, hb4⟩ := hall e he
  have hcx : clampZ ((x : ℤ) + e.1.2) 0 ((w : ℤ) - 1) = (x : ℤ) + e.1.2 := by
    unfold clampZ
    have h1 : (1 : ℤ) ≤ (x : ℤ) := by exact_mod_cast hx1
    have h2 : (x : ℤ) + 1 < (w : ℤ) := by exact_mod_cast hx2
    omega
  have hcy : clampZ ((y : ℤ) + e.1.1) 0 ((h : ℤ) - 1) = (y : ℤ) + e.1.1 := by
    unfold clampZ
    have h1 : (1 : ℤ) ≤ (y : ℤ) := by exact_mod_cast hy1
    have h2 : (y : ℤ) + 1 < (h : ℤ) := by exact_mod_cast hy2
    omega
  show (acc.1 + e.2.1 * grayAt data (clampZ ((y : ℤ) + e.1.1) 0 ((h : ℤ) - 1) * (w : ℤ) +
          clampZ ((x : ℤ) + e.1.2) 0 ((w : ℤ) - 1)),
        acc.2 + e.2.2 * grayAt data (clampZ ((y : ℤ) + e.1.1) 0 ((h : ℤ) - 1) * (w : ℤ) +
          clampZ ((x : ℤ) + e.1.2) 0 ((w : ℤ) - 1))) =
      (acc.1 + e.2.1 * grayAt data (((y : ℤ) + e.1.1) * (w : ℤ) + ((x : ℤ) + e.1.2)),
        acc.2 + e.2.2 * grayAt data (((y : ℤ) + e.1.1) * (w : ℤ) + ((x : ℤ) + e.1.2)))
  rw [hcx, hcy]

/-- C9: the coordinate clamp inside the Sobel kernel loop is never active for
the pixels the loop visits, so `computeSobelEdges` is extensionally equal to
the unclamped variant. -/
theorem computeSobelEdges_clamp_free :
    ∀ (data : List Pix) (w h : ℕ), computeSobelEdges data w h = computeSobelEdgesU data w h := by
  intro data w h
  unfold computeSobelEdges computeSobelEdgesU
  apply foldl_congr_mem
  intro m y hy
  apply foldl_congr_mem
  intro m' x hx
  have hy' := List.Ico.mem.mp hy
  have hx' := List.Ico.mem.mp hx
  have hg : sobelMagAt data w h x y = sobelMagAtU data w h x y := by
    unfold sobelMagAt sobelMagAtU
    rw [sobelGrads_eq_unclamped data w h x y (by omega) (by omega) (by omega) (by omega)]
  rw [hg]

/-! ### C7: entropy bounds -/

lemma histEntropyF_eq (f : ℕ → ℚ) :
    histEntropyF ((List.range 256).map f) =
      -(∑ i in Finset.range 256,
        if 0 < f i then (f i : ℝ) * Real.logb 2 (f i : ℝ) else 0) := by
  unfold histEntropyF
  congr 1
  have hstep : (fun (s : ℝ) (p : ℚ) => if 0 < p then s + (p : ℝ) * Real.logb 2 (p : ℝ) else s) =
      fun (s : ℝ) (p : ℚ) => s + (if 0 < p then (p : ℝ) * Real.logb 2 (p : ℝ) else 0) := by
    funext s p
    split <;> simp
  rw [hstep, foldl_add_eq (fun p : ℚ => if 0 < p then (p : ℝ) * Real.logb 2 (p : ℝ) else 0),
    zero_add, List.map_map]
  rw [show ((fun p : ℚ => if 0 < p then (p : ℝ) * Real.logb 2 (p : ℝ) else 0) ∘ f)
      = fun i => if 0 < f i then (f i : ℝ) * Real.logb 2 (f i : ℝ) else 0 from rfl]
  exact listRange_map_sum 256 _

/-- C7: `0 ≤ histEntropy ≤ 8` for the 256-bin histogram of every non-empty
well-formed image. -/
theorem histEntropy_bounds (data : List Pix) (hne : data ≠ [])
    (hwf : ∀ p ∈ data, p.r < 256) :
    0 ≤ histEntropyF (computeHistogram data) ∧
      histEntropyF (computeHistogram data) ≤ 8 := by
  have hlenpos : 0 < data.length := List.length_pos.mpr hne
  have hlenQ : (0 : ℚ) < (data.length : ℚ) := by exact_mod_cast hlenpos
  set f : ℕ → ℚ := fun i => ((data.map Pix.r).count i : ℚ) / (data.length : ℚ) with hfdef
  have hhist : computeHistogram data = (List.range 256).map f := rfl
  have hf0 : ∀ i, 0 ≤ f i := fun i => by
    rw [hfdef]
    positivity
  have hf1 : ∀ i, f i ≤ 1 := fun i => by
    rw [hfdef]
    rw [div_le_one hlenQ]
    have h1 : (data.map Pix.r).count i ≤ (data.map Pix.r).length := List.count_le_length _ _
    rw [List.length_map] at h1
    exact_mod_cast h1
  have hsum : ∑ i in Finset.range 256, f i = 1 := by
    have h1 := computeHistogram_sum_eq_one hne hwf
    rwa [hhist, listRange_map_sum 256 f] at h1
  have hsumR : ∑ i in Finset.range 256, (f i : ℝ) = 1 := by
    rw [show ∑ i in Finset.range 256, ((f i : ℝ)) = ((∑ i in Finset.range 256, f i : ℚ) : ℝ) by
      push_cast
      rfl]
    rw [hsum]
    norm_num
  rw [hhist, histEntropyF_eq f]
  have hterm_nonpos : ∀ i ∈ Finset.range 256,
      (if 0 < f i then (f i : ℝ) * Real.logb 2 (f i : ℝ) else 0) ≤ 0 := by
    intro i _
    split
    · rename_i hp
      have hlog : Real.logb 2 (f i : ℝ) ≤ 0 :=
        Real.logb_nonpos (by norm_num) (by positivity) (by exact_mod_cast hf1 i)
      have hnn : (0 : ℝ) ≤ (f i : ℝ) := by positivity
      nlinarith
    · exact le_refl _
  constructor
  · have h1 : ∑ i in Finset.range 256,
        (if 0 < f i then (f i : ℝ) * Real.logb 2 (f i : ℝ) else 0) ≤ 0 :=
      Finset.sum_nonpos hterm_nonpos
    linarith
  · set S := (Finset.range 256).filter (fun i => 0 < f i) with hSdef
    have hsum_S : ∑ i in S, (f i : ℝ) = 1 := by
      have hsplit := Finset.sum_filter_add_sum_filter_not (Finset.range 256)
        (fun i => 0 < f i) (fun i => (f i : ℝ))
      have hz : ∑ i in (Finset.range 256).filter (fun i => ¬ 0 < f i), (f i : ℝ) = 0 :=
        Finset.sum_eq_zero fun i hi => by
          have h2 := (Finset.mem_filter.mp hi).2
          have h3 : f i = 0 := le_antisymm (not_lt.mp h2) (hf0 i)
          rw [h3]
          norm_num
      rw [hz, add_zero] at hsplit
      rw [hSdef, hsplit, hsumR]
    have hneg : -(∑ i in Finset.range 256,
        (if 0 < f i then (f i : ℝ) * Real.logb 2 (f i : ℝ) else 0)) =
        ∑ i in S, (f i : ℝ) * Real.logb 2 ((f i : ℝ))⁻¹ := by
      rw [← Finset.sum_filter (fun i => 0 < f i)
        (fun i => (f i : ℝ) * Real.logb 2 (f i : ℝ)), ← Finset.sum_neg_distrib]
      exact Finset.sum_congr rfl fun i _ => by rw [Real.logb_inv]; ring
    rw [hneg]
    have hpos_S : ∀ i ∈ S, (0 : ℝ) < (f i : ℝ) := fun i hi => by
      have := (Finset.mem_filter.mp hi).2
      exact_mod_cast this
    have hjensen : ∑ i in S, (f i : ℝ) * Real.log ((f i : ℝ))⁻¹ ≤
        Real.log (∑ i in S, (f i : ℝ) * ((f i : ℝ))⁻¹) := by
      have hmem : ∀ i ∈ S, ((f i : ℝ))⁻¹ ∈ Set.Ioi (0 : ℝ) := fun i hi => by
        have := hpos_S i hi
        simp only [Set.mem_Ioi]
        positivity
      have h0 : ∀ i ∈ S, (0 : ℝ) ≤ (f i : ℝ) := fun i hi => (hpos_S i hi).le
      have hj := strictConcaveOn_log_Ioi.concaveOn.le_map_sum h0 hsum_S hmem
      simpa [smul_eq_mul] using hj
    have hsum_inv : ∑ i in S, (f i : ℝ) * ((f i : ℝ))⁻¹ = (S.card : ℝ) := by
      rw [Finset.sum_congr rfl fun i hi => mul_inv_cancel₀ (hpos_S i hi).ne']
      simp
    have hSne : S.Nonempty := by
      by_contra hS
      rw [Finset.not_nonempty_iff_eq_empty.mp hS] at hsum_S
      simp at hsum_S
    have hcardpos : (0 : ℝ) < (S.card : ℝ) := by
      exact_mod_cast Finset.card_pos.mpr hSne
    have hcard : (S.card : ℝ) ≤ 256 := by
      have h4 : S.card ≤ (Finset.range 256).card := Finset.card_filter_le _ _
      rw [Finset.card_range] at h4
      exact_mod_cast h4
    have hlogS : Real.log (S.card : ℝ) ≤ Real.log 256 :=
      Real.log_le_log hcardpos hcard
    have hlog2 : (0 : ℝ) < Real.log 2 := Real.log_pos (by norm_num)
    have hdiv : ∑ i in S, (f i : ℝ) * Real.logb 2 ((f i : ℝ))⁻¹ =
        (∑ i in S, (f i : ℝ) * Real.log ((f i : ℝ))⁻¹) / Real.log 2 := by
      rw [Finset.sum_div]
      exact Finset.sum_congr rfl fun i _ => by rw [Real.logb]; ring
    rw [hdiv]
    have h256 : Real.log 256 / Real.log 2 = 8 := by
      have h5 : Real.log 256 / Real.log 2 = Real.logb 2 256 := by rw [Real.logb]
      rw [h5, show (256 : ℝ) = 2 ^ (8 : ℕ) by norm_num, Real.logb_pow,
        Real.logb_self_eq_one] <;> norm_num
    calc (∑ i in S, (f i : ℝ) * Real.log ((f i : ℝ))⁻¹) / Real.log 2
        ≤ Real.log (S.card : ℝ) / Real.log 2 :=
          (div_le_div_iff_of_pos_right hlog2).mpr (hjensen.trans_eq (by rw [hsum_inv]))
      _ ≤ Real.log 256 / Real.log 2 := (div_le_div_iff_of_pos_right hlog2).mpr hlogS
      _ = 8 := h256

/-- Witness for C7 at a concrete one-pixel buffer. -/
theorem histEntropy_bounds_witness :
    ([(⟨7, 7, 7, 255⟩ : Pix)] ≠ ([] : List Pix)) ∧
      (∀ p ∈ [(⟨7, 7, 7, 255⟩ : Pix)], p.r < 256) ∧
      (0 ≤ histEntropyF (computeHistogram [(⟨7, 7, 7, 255⟩ : Pix)]) ∧
        histEntropyF (computeHistogram [(⟨7, 7, 7, 255⟩ : Pix)]) ≤ 8) :=
  ⟨by decide, by decide, histEntropy_bounds [⟨7, 7, 7, 255⟩] (by decide) (by decide)⟩

/-! ### C3: confidence bounds and label side -/

/-- C3: for every input buffer, `analyzeCtVsMri` returns a confidence in
`[0.5, 1]`; `probMRI = 1/(1+exp(-score))`, the label is `MRI` iff
`probMRI > 0.5`, and the confidence is `probMRI` for label `MRI` and
`1 - probMRI` for label `CT`. -/
theorem analyzeCtVsMri_confidence (data : List Pix) (w h : ℕ) :
    (1 / 2 ≤ (analyzeCtVsMri data w h).confidence ∧
        (analyzeCtVsMri data w h).confidence ≤ 1) ∧
      logistic (scoreOf data w h) = 1 / (1 + Real.exp (-(scoreOf data w h))) ∧
      ((analyzeCtVsMri data w h).modality = Modality.MRI ↔
        0.5 < logistic (scoreOf data w h)) ∧
      (analyzeCtVsMri data w h).confidence =
        (if 0.5 < logistic (scoreOf data w h) then logistic (scoreOf data w h)
          else 1 - logistic (scoreOf data w h)) := by
  have hexp : 0 < Real.exp (-(scoreOf data w h)) := Real.exp_pos _
  have hden : (0 : ℝ) < 1 + Real.exp (-(scoreOf data w h)) := by linarith
  have hp0 : 0 < logistic (scoreOf data w h) := by
    unfold logistic
    positivity
  have hp1 : logistic (scoreOf data w h) < 1 := by
    unfold logistic
    rw [div_lt_one hden]
    linarith
  have hmod : (analyzeCtVsMri data w h).modality =
      if logistic (scoreOf data w h) > 0.5 then Modality.MRI else Modality.CT := rfl
  have hconf : (analyzeCtVsMri data w h).confidence =
      if (if logistic (scoreOf data w h) > 0.5 then Modality.MRI else Modality.CT) =
          Modality.MRI then
        logistic (scoreOf data w h)
      else 1 - logistic (scoreOf data w h) := rfl
  by_cases hc : logistic (scoreOf data w h) > 0.5
  · rw [hconf, hmod, if_pos hc]
    simp only [if_pos rfl, reduceIte]
    refine ⟨⟨by linarith [hc], hp1.le⟩, rfl, by simp [hc], by rw [if_pos hc]⟩
  · rw [hconf, hmod, if_neg hc]
    have hle : logistic (scoreOf data w h) ≤ 0.5 := not_lt.mp hc
    simp only [reduceCtorEq, if_false]
    refine ⟨⟨by linarith, by linarith⟩, rfl, ?_, by rw [if_neg hc]⟩
    simp [hc]

/-! ### C5: heatmap normalization -/

lemma varAcc_count (data : List Pix) (w h x y : ℕ) :
    (varAcc data w h x y).2.2 = 25 := rfl

/-- Every 5×5 window variance is an integer multiple of `1/625`. -/
lemma varAt_def (data : List Pix) (w h x y : ℕ) :
    varAt data w h x y =
      ((varAcc data w h x y).2.1 : ℚ) / ((varAcc data w h x y).2.2 : ℚ) -
        ((varAcc data w h x y).1 : ℚ) / ((varAcc data w h x y).2.2 : ℚ) *
          (((varAcc data w h x y).1 : ℚ) / ((varAcc data w h x y).2.2 : ℚ)) := rfl

lemma varAt_quantized (data : List Pix) (w h x y : ℕ) :
    ∃ k : ℤ, varAt data w h x y = (k : ℚ) / 625 := by
  refine ⟨25 * (varAcc data w h x y).2.1 - (varAcc data w h x y).1 ^ 2, ?_⟩
  rw [varAt_def, varAcc_count]
  push_cast
  field_simp
  ring

/-- If every sampled window value equals `c`, the accumulator is
`(25c, 25c², 25)`. -/
lemma varAcc_uniform (data : List Pix) (w h x y : ℕ) (c : ℤ)
    (hsample : ∀ dy ∈ winOffs, ∀ dx ∈ winOffs,
      grayAt data (min ((h : ℤ) - 1) (max 0 ((y : ℤ) + dy)) * (w : ℤ) +
        min ((w : ℤ) - 1) (max 0 ((x : ℤ) + dx))) = c) :
    varAcc data w h x y = (25 * c, 25 * c * c, 25) := by
  unfold varAcc
  have hcongr : winOffs.foldl
      (fun (a : ℤ × ℤ × ℕ) dy =>
        winOffs.foldl
          (fun a dx =>
            let xx := min ((w : ℤ) - 1) (max 0 ((x : ℤ) + dx))
            let yy := min ((h : ℤ) - 1) (max 0 ((y : ℤ) + dy))
            let v := grayAt data (yy * (w : ℤ) + xx)
            (a.1 + v, a.2.1 + v * v, a.2.2 + 1))
          a)
      (0, 0, 0) =
      winOffs.foldl
        (fun (a : ℤ × ℤ × ℕ) _ =>
          winOffs.foldl (fun a _ => (a.1 + c, a.2.1 + c * c, a.2.2 + 1)) a)
        (0, 0, 0) := by
    apply foldl_congr_mem
    intro b dy hdy
    apply foldl_congr_mem
    intro b' dx hdx
    show (b'.1 + grayAt data (min ((h : ℤ) - 1) (max 0 ((y : ℤ) + dy)) * (w : ℤ) +
            min ((w : ℤ) - 1) (max 0 ((x : ℤ) + dx))),
          b'.2.1 + grayAt data (min ((h : ℤ) - 1) (max 0 ((y : ℤ) + dy)) * (w : ℤ) +
            min ((w : ℤ) - 1) (max 0 ((x : ℤ) + dx))) *
            grayAt data (min ((h : ℤ) - 1) (max 0 ((y : ℤ) + dy)) * (w : ℤ) +
              min ((w : ℤ) - 1) (max 0 ((x : ℤ) + dx))),
          b'.2.2 + 1) =
        (b'.1 + c, b'.2.1 + c * c, b'.2.2 + 1)
    rw [hsample dy hdy dx hdx]
  rw [hcongr]
  simp only [winOffs, List.foldl, Prod.mk.injEq]
  refine ⟨by ring, by ring, trivial⟩

lemma mem_varField {data : List Pix} {w h : ℕ} {v : ℚ} :
    v ∈ varField data w h ↔ ∃ y, y < h ∧ ∃ x, x < w ∧ varAt data w h x y = v := by
  unfold varField
  rw [List.mem_flatMap]
  constructor
  · rintro ⟨a, ha, hv⟩
    obtain ⟨x, hx, hxv⟩ := List.mem_map.mp hv
    exact ⟨a, List.mem_range.mp ha, x, List.mem_range.mp hx, hxv⟩
  · rintro ⟨y, hy, x, hx, hxy⟩
    exact ⟨y, List.mem_range.mpr hy, List.mem_map.mpr ⟨x, List.mem_range.mpr hx, hxy⟩⟩

lemma varField_length (data : List Pix) (w h : ℕ) :
    (varField data w h).length = h * w := by
  unfold varField
  rw [List.length_flatMap]
  rw [show (List.length ∘ fun y => List.map (fun x => varAt data w h x y) (List.range w))
      = fun _ => w by
    funext y
    simp]
  rw [List.map_const', List.sum_replicate, smul_eq_mul, List.length_range]

/-- For a uniform buffer every sampled value equals the constant. -/
lemma uniform_sample {data : List Pix} {w h : ℕ} {c : ℕ} (hw : 0 < w) (hh : 0 < h)
    (hlen : data.length = w * h) (hc : ∀ p ∈ data, p.r = c) (x y : ℕ) (dy dx : ℤ) :
    grayAt data (min ((h : ℤ) - 1) (max 0 ((y : ℤ) + dy)) * (w : ℤ) +
      min ((w : ℤ) - 1) (max 0 ((x : ℤ) + dx))) = (c : ℤ) := by
  have hw1 : (1 : ℤ) ≤ (w : ℤ) := by exact_mod_cast hw
  have hh1 : (1 : ℤ) ≤ (h : ℤ) := by exact_mod_cast hh
  set yy := min ((h : ℤ) - 1) (max 0 ((y : ℤ) + dy)) with hyy
  set xx := min ((w : ℤ) - 1) (max 0 ((x : ℤ) + dx)) with hxx
  have hyyb : 0 ≤ yy ∧ yy ≤ (h : ℤ) - 1 := by
    constructor <;> omega
  have hxxb : 0 ≤ xx ∧ xx ≤ (w : ℤ) - 1 := by
    constructor <;> omega
  have hprod : yy * (w : ℤ) ≤ ((h : ℤ) - 1) * (w : ℤ) :=
    mul_le_mul_of_nonneg_right hyyb.2 (by omega)
  have hprod0 : 0 ≤ yy * (w : ℤ) := mul_nonneg hyyb.1 (by omega)
  have hidx0 : 0 ≤ yy * (w : ℤ) + xx := by omega
  have hidxlt : yy * (w : ℤ) + xx < (w : ℤ) * (h : ℤ) := by nlinarith
  have htoNat : (yy * (w : ℤ) + xx).toNat < data.length := by
    rw [hlen]
    have hcast : ((w * h : ℕ) : ℤ) = (w : ℤ) * (h : ℤ) := by push_cast; rfl
    omega
  unfold grayAt
  rw [List.getD_eq_getElem data default htoNat]
  have hr := hc _ (data.getElem_mem htoNat)
  exact_mod_cast hr

lemma varAt_uniform_zero {data : List Pix} {w h : ℕ} {c : ℕ} (hw : 0 < w) (hh : 0 < h)
    (hlen : data.length = w * h) (hc : ∀ p ∈ data, p.r = c) (x y : ℕ) :
    varAt data w h x y = 0 := by
  have hacc := varAcc_uniform data w h x y (c : ℤ)
    (fun dy _ dx _ => uniform_sample hw hh hlen hc x y dy dx)
  rw [varAt_def, hacc]
  push_cast
  field_simp
  ring

lemma varField_uniform {data : List Pix} {w h : ℕ} {c : ℕ} (hw : 0 < w) (hh : 0 < h)
    (hlen : data.length = w * h) (hc : ∀ p ∈ data, p.r = c) :
    varField data w h = List.replicate (w * h) (0 : ℚ) := by
  rw [List.eq_replicate_iff]
  refine ⟨by rw [varField_length]; exact Nat.mul_comm h w, ?_⟩
  intro b hb
  obtain ⟨y, hy, x, hx, hxy⟩ := mem_varField.mp hb
  rw [← hxy]
  exact varAt_uniform_zero hw hh hlen hc x y

lemma colormap_zero : colormap 0 = ⟨0, 0, 255, 180⟩ := by
  unfold colormap
  rw [Real.zero_rpow (by norm_num : (0.35 : ℝ) ≠ 0),
    Real.zero_rpow (by norm_num : (1.2 : ℝ) ≠ 0)]
  have h1 : ⌊(255 * (0 : ℝ) + 1 / 2 : ℝ)⌋ = 0 := by
    rw [Int.floor_eq_iff] <;> norm_num
  have h2 : ⌊(255 * (0 : ℝ) * (1 - 0) + 1 / 2 : ℝ)⌋ = 0 := by
    rw [Int.floor_eq_iff] <;> norm_num
  have h3 : ⌊(255 * (1 - (0 : ℝ)) + 1 / 2 : ℝ)⌋ = 255 := by
    rw [Int.floor_eq_iff] <;> norm_num
  rw [h1, h2, h3]
  rfl

lemma minimum_untop_replicate_zero {n : ℕ} (hn : 0 < n) :
    (List.replicate n (0 : ℚ)).minimum.untop' 0 = 0 := by
  have hmem : (0 : ℚ) ∈ List.replicate n (0 : ℚ) := by
    rw [List.mem_replicate]
    exact ⟨hn.ne', rfl⟩
  have hmin : (List.replicate n (0 : ℚ)).minimum = ((0 : ℚ) : WithTop ℚ) := by
    rw [List.minimum_eq_coe_iff]
    exact ⟨hmem, fun a ha => le_of_eq (List.eq_of_mem_replicate ha).symm⟩
  rw [hmin, WithTop.untop'_coe]

lemma maximum_unbot_replicate_zero {n : ℕ} (hn : 0 < n) :
    (List.replicate n (0 : ℚ)).maximum.unbot' 0 = 0 := by
  have hmem : (0 : ℚ) ∈ List.replicate n (0 : ℚ) := by
    rw [List.mem_replicate]
    exact ⟨hn.ne', rfl⟩
  have hmax : (List.replicate n (0 : ℚ)).maximum = ((0 : ℚ) : WithBot ℚ) := by
    rw [List.maximum_eq_coe_iff]
    exact ⟨hmem, fun a ha => le_of_eq (List.eq_of_mem_replicate ha)⟩
  rw [hmax, WithBot.unbot'_coe]

lemma normField_uniform {data : List Pix} {w h : ℕ} {c : ℕ} (hw : 0 < w) (hh : 0 < h)
    (hlen : data.length = w * h) (hc : ∀ p ∈ data, p.r = c) :
    normField data w h = List.replicate (w * h) (0 : ℚ) := by
  have hn : 0 < w * h := Nat.mul_pos hw hh
  simp only [normField]
  rw [varField_uniform hw hh hlen hc, minimum_untop_replicate_zero hn,
    maximum_unbot_replicate_zero hn, List.map_replicate]
  norm_num

/-- C5: for a non-constant variance field the normalized field attains 0 and
1 and stays within `[0, 1]` (the `1e-6` floor never binds because window
variances are multiples of `1/625`); for a uniform input image the heatmap
is uniformly the colormap value at `v = 0`, i.e. `(0, 0, 255, 180)`. -/
theorem heatmap_normalization (data : List Pix) (w h : ℕ)
    (hw : 0 < w) (hh : 0 < h) (hlen : data.length = w * h) :
    ((∃ a ∈ varField data w h, ∃ b ∈ varField data w h, a ≠ b) →
      0 ∈ normField data w h ∧ 1 ∈ normField data w h ∧
        ∀ v ∈ normField data w h, 0 ≤ v ∧ v ≤ 1) ∧
      ((∃ c : ℕ, ∀ p ∈ data, p.r = c) →
        drawGradCAMLikeHeatmap data w h = List.replicate (w * h) ⟨0, 0, 255, 180⟩) := by
  constructor
  · rintro ⟨a, ha, b, hb, hab⟩
    have hne : varField data w h ≠ [] := fun he => by
      rw [he] at ha
      exact (List.not_mem_nil a) ha
    obtain ⟨m, hm⟩ : ∃ m : ℚ, (varField data w h).minimum = (m : WithTop ℚ) := by
      have h1 := List.minimum_ne_top_of_ne_nil hne
      rcases WithTop.ne_top_iff_exists.mp h1 with ⟨m, hm⟩
      exact ⟨m, hm.symm⟩
    obtain ⟨M, hM⟩ : ∃ M : ℚ, (varField data w h).maximum = (M : WithBot ℚ) := by
      have h1 : (varField data w h).maximum ≠ ⊥ := fun hbot =>
        hne (List.maximum_eq_bot.mp hbot)
      rcases WithBot.ne_bot_iff_exists.mp h1 with ⟨M, hM⟩
      exact ⟨M, hM.symm⟩
    obtain ⟨hmmem, hmle⟩ := List.minimum_eq_coe_iff.mp hm
    obtain ⟨hMmem, hMge⟩ := List.maximum_eq_coe_iff.mp hM
    have hmM : m < M := by
      by_contra hcon
      have hMm : M ≤ m := not_lt.mp hcon
      have haeq : a = m := le_antisymm (le_trans (hMge a ha) hMm) (hmle a ha)
      have hbeq : b = m := le_antisymm (le_trans (hMge b hb) hMm) (hmle b hb)
      exact hab (haeq.trans hbeq.symm)
    obtain ⟨km, hkm⟩ : ∃ k : ℤ, m = (k : ℚ) / 625 := by
      obtain ⟨y, hy, x, hx, hxy⟩ := mem_varField.mp hmmem
      obtain ⟨k, hk⟩ := varAt_quantized data w h x y
      exact ⟨k, by rw [← hxy, hk]⟩
    obtain ⟨kM, hkM⟩ : ∃ k : ℤ, M = (k : ℚ) / 625 := by
      obtain ⟨y, hy, x, hx, hxy⟩ := mem_varField.mp hMmem
      obtain ⟨k, hk⟩ := varAt_quantized data w h x y
      exact ⟨k, by rw [← hxy, hk]⟩
    have hgap : 1 / 625 ≤ M - m := by
      have hklt : km < kM := by
        have h1 := hmM
        rw [hkm, hkM] at h1
        have h2 : (km : ℚ) < (kM : ℚ) := by linarith
        exact_mod_cast h2
      have h3 : (1 : ℚ) ≤ (kM : ℚ) - (km : ℚ) := by
        have h4 : km + 1 ≤ kM := hklt
        have h5 : ((km : ℚ) + 1) ≤ (kM : ℚ) := by exact_mod_cast h4
        linarith
      rw [hkm, hkM]
      linarith
    have hrngpos : (0 : ℚ) < M - m := by linarith
    have hrng : max (1 / 1000000) (M - m) = M - m := max_eq_right (by linarith)
    have hnf : normField data w h =
        (varField data w h).map (fun v => (v - m) / (M - m)) := by
      simp only [normField]
      rw [hm, hM, WithTop.untop'_coe, WithBot.unbot'_coe, hrng]
    rw [hnf]
    refine ⟨?_, ?_, ?_⟩
    · refine List.mem_map.mpr ⟨m, hmmem, ?_⟩
      show (m - m) / (M - m) = 0
      rw [sub_self, zero_div]
    · refine List.mem_map.mpr ⟨M, hMmem, ?_⟩
      show (M - m) / (M - m) = 1
      exact div_self hrngpos.ne'
    · intro v hv
      obtain ⟨u, hu, huv⟩ := List.mem_map.mp hv
      rw [← huv]
      constructor
      · exact div_nonneg (by linarith [hmle u hu]) hrngpos.le
      · rw [div_le_one hrngpos]
        linarith [hMge u hu]
  · rintro ⟨c, hc⟩
    unfold drawGradCAMLikeHeatmap
    rw [normField_uniform hw hh hlen hc, List.map_replicate]
    rw [show ((((0 : ℚ)) : ℝ)) = (0 : ℝ) by norm_num]
    rw [colormap_zero]

/-- A 3×3 buffer with one bright corner pixel (non-constant variance field). -/
def pixW1 : List Pix := ⟨255, 255, 255, 255⟩ :: List.replicate 8 ⟨0, 0, 0, 255⟩

/-- A uniform 2×2 buffer. -/
def pixW2 : List Pix := List.replicate 4 ⟨9, 9, 9, 255⟩

lemma pixW1_varAcc_corner : varAcc pixW1 3 3 0 0 = (2295, 585225, 25) := rfl

lemma pixW1_varAcc_far : varAcc pixW1 3 3 2 2 = (255, 65025, 25) := rfl

lemma pixW1_nonconstant :
    ∃ a ∈ varField pixW1 3 3, ∃ b ∈ varField pixW1 3 3, a ≠ b := by
  refine ⟨varAt pixW1 3 3 0 0, mem_varField.mpr ⟨0, by norm_num, 0, by norm_num, rfl⟩,
    varAt pixW1 3 3 2 2, mem_varField.mpr ⟨2, by norm_num, 2, by norm_num, rfl⟩, ?_⟩
  rw [varAt_def, varAt_def, pixW1_varAcc_corner, pixW1_varAcc_far]
  norm_num

/-- Witness for C5 at concrete non-constant and uniform buffers. -/
theorem heatmap_normalization_witness :
    (0 ∈ normField pixW1 3 3 ∧ 1 ∈ normField pixW1 3 3 ∧
        ∀ v ∈ normField pixW1 3 3, 0 ≤ v ∧ v ≤ 1) ∧
      drawGradCAMLikeHeatmap pixW2 2 2 = List.replicate (2 * 2) ⟨0, 0, 255, 180⟩ :=
  ⟨(heatmap_normalization pixW1 3 3 (by decide) (by decide) (by decide)).1
      pixW1_nonconstant,
    (heatmap_normalization pixW2 2 2 (by decide) (by decide) (by decide)).2 ⟨9, by decide⟩⟩

/-! ### C1: the concrete uniform-gray scenario -/

lemma zip_self_eq_map {α : Type} : ∀ (l : List α), l.zip l = l.map fun x => (x, x)
  | [] => rfl
  | a :: l => by rw [List.zip_cons_cons, zip_self_eq_map l, List.map_cons]

lemma histMeanF_eq (n : ℕ) (f : ℕ → ℚ) :
    histMeanF ((List.range n).map f) = ∑ i in Finset.range n, f i * (i : ℚ) := by
  unfold histMeanF
  rw [List.enum_map, List.enum_eq_zip_range, List.length_range, zip_self_eq_map,
    List.map_map, List.foldl_map]
  show List.foldl (fun s i => s + (fun j : ℕ => f j * (j : ℚ)) i) 0 (List.range n) = _
  rw [foldl_add_eq (fun j : ℕ => f j * (j : ℚ)) (List.range n) 0, zero_add,
    listRange_map_sum]

lemma histVarF_eq (n : ℕ) (f : ℕ → ℚ) :
    histVarF ((List.range n).map f) =
      ∑ i in Finset.range n,
        f i * ((i : ℚ) - histMeanF ((List.range n).map f)) *
          ((i : ℚ) - histMeanF ((List.range n).map f)) := by
  unfold histVarF
  rw [List.enum_map, List.enum_eq_zip_range, List.length_range, zip_self_eq_map,
    List.map_map, List.foldl_map]
  show List.foldl (fun s i => s + (fun j : ℕ =>
      f j * ((j : ℚ) - histMeanF ((List.range n).map f)) *
        ((j : ℚ) - histMeanF ((List.range n).map f))) i) 0 (List.range n) = _
  rw [foldl_add_eq _ (List.range n) 0, zero_add, listRange_map_sum]

/-- The 256×256 uniform gray input of the spec's concrete scenario. -/
def uniform128 : List Pix := List.replicate 65536 ⟨128, 128, 128, 255⟩

/-- The all-zero normalized buffer the pipeline produces from it. -/
def norm0 : List Pix := List.replicate 65536 ⟨0, 0, 0, 255⟩

lemma jsRound_ofInt (z : ℤ) : jsRound (z : ℚ) = z := by
  unfold jsRound
  rw [Int.floor_eq_iff]
  constructor
  · linarith
  · linarith

lemma foldl_replicate_const {α β : Type} (f : β → α → β) (x : α) (b : β)
    (h2 : f b x = b) : ∀ n, List.foldl f b (List.replicate n x) = b
  | 0 => rfl
  | n + 1 => by
    rw [List.replicate_succ, List.foldl_cons, h2, foldl_replicate_const f x b h2 n]

lemma foldl_replicate_head {α β : Type} (f : β → α → β) (x : α) (a b : β)
    (h1 : f a x = b) (h2 : f b x = b) (n : ℕ) (hn : 1 ≤ n) :
    List.foldl f a (List.replicate n x) = b := by
  obtain ⟨m, rfl⟩ : ∃ m, n = m + 1 := ⟨n - 1, by omega⟩
  rw [List.replicate_succ, List.foldl_cons, h1, foldl_replicate_const f x b h2 m]

lemma toGrayscale_uniform128 : toGrayscale uniform128 = uniform128 := by
  unfold toGrayscale uniform128
  rw [List.map_replicate]
  have hq : (0.2126 : ℚ) * ((128 : ℕ) : ℚ) + 0.7152 * ((128 : ℕ) : ℚ) +
      0.0722 * ((128 : ℕ) : ℚ) = ((128 : ℤ) : ℚ) := by
    push_cast
    norm_num
  show List.replicate 65536
      (⟨clamp255 (jsRound (0.2126 * ((128 : ℕ) : ℚ) + 0.7152 * ((128 : ℕ) : ℚ) +
          0.0722 * ((128 : ℕ) : ℚ))), _, _, 255⟩ : Pix) = _
  rw [hq, jsRound_ofInt]
  rfl

lemma normalizeIntensity_uniform128 : normalizeIntensity uniform128 = norm0 := by
  have hmin : minScan uniform128 = 128 := by
    unfold minScan uniform128
    exact foldl_replicate_head _ _ 255 128 (by norm_num) (by norm_num) 65536 (by norm_num)
  have hmax : maxScan uniform128 = 128 := by
    unfold maxScan uniform128
    exact foldl_replicate_head _ _ 0 128 (by norm_num) (by norm_num) 65536 (by norm_num)
  have hval : clamp255 (jsRound ((((128 : ℕ) : ℚ) - ((128 : ℕ) : ℚ)) /
      ((max 1 (((128 : ℕ) : ℤ) - ((128 : ℕ) : ℤ)) : ℤ) : ℚ) * 255)) = 0 := by
    have hq : (((128 : ℕ) : ℚ) - ((128 : ℕ) : ℚ)) /
        ((max 1 (((128 : ℕ) : ℤ) - ((128 : ℕ) : ℤ)) : ℤ) : ℚ) * 255 = ((0 : ℤ) : ℚ) := by
      norm_num
    rw [hq, jsRound_ofInt]
    rfl
  have hform : normalizeIntensity uniform128 =
      uniform128.map (fun p =>
        let n := clamp255 (jsRound (((p.r : ℚ) - ((minScan uniform128 : ℕ) : ℚ)) /
          ((max 1 ((maxScan uniform128 : ℤ) - (minScan uniform128 : ℤ)) : ℤ) : ℚ) * 255))
        ⟨n, n, n, p.a⟩) := rfl
  rw [hform, hmin, hmax]
  unfold uniform128 norm0
  rw [List.map_replicate]
  refine congrArg (List.replicate 65536) ?_
  dsimp only
  rw [hval]

lemma hist_norm0 : computeHistogram norm0 =
    (List.range 256).map (fun i => if i = 0 then (1 : ℚ) else 0) := by
  unfold computeHistogram norm0
  apply List.map_congr_left
  intro i hi
  rw [List.map_replicate, List.count_replicate, List.length_replicate]
  by_cases h0 : i = 0
  · subst h0
    norm_num
  · have hne : ((⟨0, 0, 0, 255⟩ : Pix).r == i) = false := by
      simp
      omega
    rw [hne]
    simp [h0]

lemma histMean_norm0 : histMeanF (computeHistogram norm0) = 0 := by
  rw [hist_norm0, histMeanF_eq]
  apply Finset.sum_eq_zero
  intro i hi
  by_cases h0 : i = 0
  · subst h0
    norm_num
  · simp [h0]

lemma histVar_norm0 : histVarF (computeHistogram norm0) = 0 := by
  have hm : histMeanF ((List.range 256).map fun i => if i = 0 then (1 : ℚ) else 0) = 0 := by
    rw [← hist_norm0]
    exact histMean_norm0
  rw [hist_norm0, histVarF_eq]
  apply Finset.sum_eq_zero
  intro i hi
  by_cases h0 : i = 0
  · subst h0
    rw [hm]
    norm_num
  · simp [h0]

lemma histEntropy_norm0 : histEntropyF (computeHistogram norm0) = 0 := by
  rw [hist_norm0, histEntropyF_eq]
  rw [Finset.sum_eq_zero, neg_zero]
  intro i hi
  by_cases h0 : i = 0
  · subst h0
    simp [Real.logb_one]
  · simp [h0]

lemma grayAt_norm0 (i : ℤ) : grayAt norm0 i = 0 := by
  unfold grayAt norm0
  by_cases hlt : i.toNat < (List.replicate 65536 (⟨0, 0, 0, 255⟩ : Pix)).length
  · rw [List.getD_eq_getElem _ _ hlt,
      List.eq_of_mem_replicate (List.getElem_mem hlt)]
    rfl
  · rw [List.getD_eq_default _ _ (not_lt.mp hlt)]
    rfl

lemma foldl_keep {α β : Type} : ∀ (l : List α) (b : β), l.foldl (fun b _ => b) b = b
  | [], _ => rfl
  | _ :: l, b => foldl_keep l b

lemma sobelGrads_norm0 (w h x y : ℕ) : sobelGrads norm0 w h x y = (0, 0) := by
  unfold sobelGrads
  have hcong : (kOffs.zip (gxKernel.zip gyKernel)).foldl
      (fun (acc : ℤ × ℤ) e =>
        let px := clampZ ((x : ℤ) + e.1.2) 0 ((w : ℤ) - 1)
        let py := clampZ ((y : ℤ) + e.1.1) 0 ((h : ℤ) - 1)
        let v := grayAt norm0 (py * (w : ℤ) + px)
        (acc.1 + e.2.1 * v, acc.2 + e.2.2 * v))
      (0, 0) =
      (kOffs.zip (gxKernel.zip gyKernel)).foldl (fun (acc : ℤ × ℤ) _ => acc) (0, 0) := by
    apply foldl_congr_mem
    intro b e he
    simp [grayAt_norm0]
  rw [hcong, foldl_keep]

lemma sobelMagAt_norm0 (w h x y : ℕ) : sobelMagAt norm0 w h x y = 0 := by
  unfold sobelMagAt
  rw [sobelGrads_norm0]
  simp

lemma computeSobelEdges_norm0 (w h : ℕ) (j : ℕ) : computeSobelEdges norm0 w h j = 0 := by
  have hxs : ∀ x' ∈ List.Ico 1 (w - 1), x' < w := fun x' hx' => by
    have := List.Ico.mem.mp hx'
    omega
  have hchar : computeSobelEdges norm0 w h j =
      if ∃ yy ∈ List.Ico 1 (h - 1), ∃ xx ∈ List.Ico 1 (w - 1), j = yy * w + xx then
        (fun a b => sobelMagAt norm0 w h a b) (j % w) (j / w)
      else (fun _ : ℕ => (0 : ℝ)) j :=
    foldl_update_grid w (fun a b => sobelMagAt norm0 w h a b) (List.Ico 1 (w - 1)) hxs
      (List.Ico 1 (h - 1)) (fun _ => 0) j
  rw [hchar]
  split
  · exact sobelMagAt_norm0 w h (j % w) (j / w)
  · rfl

lemma sobelList_norm0 (w h : ℕ) : ∀ v ∈ sobelList norm0 w h, v = 0 := by
  intro v hv
  obtain ⟨j, _, hjv⟩ := List.mem_map.mp hv
  rw [← hjv]
  exact computeSobelEdges_norm0 w h j

lemma foldl_add_g_zero (g : ℝ → ℝ) (hg : g 0 = 0) :
    ∀ (l : List ℝ), (∀ v ∈ l, v = 0) → ∀ init : ℝ,
      l.foldl (fun s v => s + g v) init = init
  | [], _, _ => rfl
  | a :: l, hl, init => by
    rw [List.foldl_cons, hl a (l.mem_cons_self a), hg, add_zero]
    exact foldl_add_g_zero g hg l (fun v hv => hl v (List.mem_cons_of_mem a hv)) init

lemma meanL_zero {l : List ℝ} (hl : ∀ v ∈ l, v = 0) : meanL l = 0 := by
  unfold meanL
  rw [show l.foldl (fun s v => s + v) 0 = 0 from
    foldl_add_g_zero (fun v => v) rfl l hl 0]
  exact zero_div _

lemma stdL_zero {l : List ℝ} (hl : ∀ v ∈ l, v = 0) : stdL l 0 = 0 := by
  unfold stdL
  rw [show l.foldl (fun s v => s + (v - 0) * (v - 0)) 0 = 0 from
    foldl_add_g_zero (fun v => (v - 0) * (v - 0)) (by norm_num) l hl 0]
  rw [zero_div, Real.sqrt_zero]

lemma percentileAt_all_zero {l : List ℝ} (hl : ∀ v ∈ l, v = 0) (hne : l ≠ [])
    (p : ℚ) : percentileAt l p = 0 := by
  rw [percentileAt_def]
  have hpos : 0 < l.mergeSort.length := by
    rw [List.length_mergeSort]
    exact List.length_pos.mpr hne
  have h1 : (1 : ℤ) ≤ (l.mergeSort.length : ℤ) := by exact_mod_cast hpos
  have h2 : min ((l.mergeSort.length : ℤ) - 1)
      (max 0 (jsRound (p / 100 * ((l.mergeSort.length : ℚ) - 1)))) ≤
        (l.mergeSort.length : ℤ) - 1 := min_le_left _ _
  have hlt : (min ((l.mergeSort.length : ℤ) - 1)
      (max 0 (jsRound (p / 100 * ((l.mergeSort.length : ℚ) - 1))))).toNat <
        l.mergeSort.length := by omega
  rw [List.getD_eq_getElem _ _ hlt]
  exact hl _ ((List.mergeSort_perm l _).mem_iff.mp (List.getElem_mem hlt))

lemma textureInner_zero (w : ℕ) (y : ℕ) (b : ℤ) :
    (List.range (w - 1)).foldl
      (fun (e : ℤ) (x : ℕ) =>
        let i := (y : ℤ) * (w : ℤ) + (x : ℤ)
        let dx := grayAt norm0 i - grayAt norm0 (i + 1)
        let dy := grayAt norm0 i - grayAt norm0 (i + (w : ℤ))
        e + |dx| + |dy|)
      b = b := by
  have h1 : (List.range (w - 1)).foldl
      (fun (e : ℤ) (x : ℕ) =>
        let i := (y : ℤ) * (w : ℤ) + (x : ℤ)
        let dx := grayAt norm0 i - grayAt norm0 (i + 1)
        let dy := grayAt norm0 i - grayAt norm0 (i + (w : ℤ))
        e + |dx| + |dy|)
      b = (List.range (w - 1)).foldl (fun (e : ℤ) (_ : ℕ) => e) b := by
    apply foldl_congr_mem
    intro e x hx
    simp [grayAt_norm0]
  rw [h1, foldl_keep]

lemma computeTextureEnergy_norm0 (w h : ℕ) : computeTextureEnergy norm0 w h = 0 := by
  have h2 : (List.range (h - 1)).foldl
      (fun (e : ℤ) (y : ℕ) =>
        (List.range (w - 1)).foldl
          (fun (e : ℤ) (x : ℕ) =>
            let i := (y : ℤ) * (w : ℤ) + (x : ℤ)
            let dx := grayAt norm0 i - grayAt norm0 (i + 1)
            let dy := grayAt norm0 i - grayAt norm0 (i + (w : ℤ))
            e + |dx| + |dy|)
          e)
      0 = 0 := by
    have h3 : (List.range (h - 1)).foldl
        (fun (e : ℤ) (y : ℕ) =>
          (List.range (w - 1)).foldl
            (fun (e : ℤ) (x : ℕ) =>
              let i := (y : ℤ) * (w : ℤ) + (x : ℤ)
              let dx := grayAt norm0 i - grayAt norm0 (i + 1)
              let dy := grayAt norm0 i - grayAt norm0 (i + (w : ℤ))
              e + |dx| + |dy|)
            e)
        0 = (List.range (h - 1)).foldl (fun (e : ℤ) (_ : ℕ) => e) 0 := by
      apply foldl_congr_mem
      intro b y hy
      exact textureInner_zero w y b
    rw [h3, foldl_keep]
  unfold computeTextureEnergy
  rw [h2]
  norm_num

lemma pipe_norm0 : normalizeIntensity (toGrayscale uniform128) = norm0 := by
  rw [toGrayscale_uniform128, normalizeIntensity_uniform128]

lemma sobelList_norm0_ne_nil : sobelList norm0 256 256 ≠ [] := by
  unfold sobelList
  simp

lemma features_u_histMean : (featuresOf uniform128 256 256).histMean = 0 := by
  show histMeanF (computeHistogram (normalizeIntensity (toGrayscale uniform128))) = 0
  rw [pipe_norm0]
  exact histMean_norm0

lemma features_u_histVar : (featuresOf uniform128 256 256).histVar = 0 := by
  show histVarF (computeHistogram (normalizeIntensity (toGrayscale uniform128))) = 0
  rw [pipe_norm0]
  exact histVar_norm0

lemma features_u_histEntropy : (featuresOf uniform128 256 256).histEntropy = 0 := by
  show histEntropyF (computeHistogram (normalizeIntensity (toGrayscale uniform128))) = 0
  rw [pipe_norm0]
  exact histEntropy_norm0

lemma features_u_edgeMean : (featuresOf uniform128 256 256).edgeMean = 0 := by
  show meanL (sobelList (normalizeIntensity (toGrayscale uniform128)) 256 256) = 0
  rw [pipe_norm0]
  exact meanL_zero (sobelList_norm0 256 256)

lemma features_u_edgeStd : (featuresOf uniform128 256 256).edgeStd = 0 := by
  show stdL (sobelList (normalizeIntensity (toGrayscale uniform128)) 256 256)
      (meanL (sobelList (normalizeIntensity (toGrayscale uniform128)) 256 256)) = 0
  rw [pipe_norm0, meanL_zero (sobelList_norm0 256 256)]
  exact stdL_zero (sobelList_norm0 256 256)

lemma features_u_edgeP50 : (featuresOf uniform128 256 256).edgeP50 = 0 := by
  show percentileAt (sobelList (normalizeIntensity (toGrayscale uniform128)) 256 256) 50 = 0
  rw [pipe_norm0]
  exact percentileAt_all_zero (sobelList_norm0 256 256) sobelList_norm0_ne_nil 50

lemma features_u_edgeP90 : (featuresOf uniform128 256 256).edgeP90 = 0 := by
  show percentileAt (sobelList (normalizeIntensity (toGrayscale uniform128)) 256 256) 90 = 0
  rw [pipe_norm0]
  exact percentileAt_all_zero (sobelList_norm0 256 256) sobelList_norm0_ne_nil 90

lemma features_u_edgeP99 : (featuresOf uniform128 256 256).edgeP99 = 0 := by
  show percentileAt (sobelList (normalizeIntensity (toGrayscale uniform128)) 256 256) 99 = 0
  rw [pipe_norm0]
  exact percentileAt_all_zero (sobelList_norm0 256 256) sobelList_norm0_ne_nil 99

lemma features_u_textureE : (featuresOf uniform128 256 256).textureE = 0 := by
  show computeTextureEnergy (normalizeIntensity (toGrayscale uniform128)) 256 256 = 0
  rw [pipe_norm0]
  exact computeTextureEnergy_norm0 256 256

lemma scoreOf_uniform128 : scoreOf uniform128 256 256 = -1 := by
  show -1 + ((featuresOf uniform128 256 256).histMean : ℝ) * (-0.01)
      + ((featuresOf uniform128 256 256).histVar : ℝ) * (-0.002)
      + (featuresOf uniform128 256 256).histEntropy * 0.8
      + (featuresOf uniform128 256 256).edgeMean * (-0.015)
      + (featuresOf uniform128 256 256).edgeStd * (-0.02)
      + (featuresOf uniform128 256 256).edgeP50 * (-0.001)
      + (featuresOf uniform128 256 256).edgeP90 * (-0.0008)
      + (featuresOf uniform128 256 256).edgeP99 * (-0.0005)
      + ((featuresOf uniform128 256 256).textureE : ℝ) * (-0.004) = -1
  rw [features_u_histMean, features_u_histVar, features_u_histEntropy,
    features_u_edgeMean, features_u_edgeStd, features_u_edgeP50,
    features_u_edgeP90, features_u_edgeP99, features_u_textureE]
  push_cast
  ring

lemma logistic_uniform128 :
    logistic (scoreOf uniform128 256 256) = 1 / (1 + Real.exp 1) := by
  rw [scoreOf_uniform128]
  unfold logistic
  rw [neg_neg]

lemma prob_uniform128_bounds :
    0.2688 ≤ 1 / (1 + Real.exp 1) ∧ 1 / (1 + Real.exp 1) ≤ 0.269 := by
  have he1 := Real.exp_one_gt_d9
  have he2 := Real.exp_one_lt_d9
  have hden : (0 : ℝ) < 1 + Real.exp 1 := by positivity
  constructor
  · rw [le_div_iff hden]
    nlinarith
  · rw [div_le_iff hden]
    nlinarith

lemma modality_uniform128 :
    (analyzeCtVsMri uniform128 256 256).modality = Modality.CT := by
  have hle : logistic (scoreOf uniform128 256 256) ≤ 0.5 := by
    rw [logistic_uniform128]
    have h2 := prob_uniform128_bounds.2
    linarith
  show (if logistic (scoreOf uniform128 256 256) > 0.5 then Modality.MRI
    else Modality.CT) = Modality.CT
  rw [if_neg (not_lt.mpr hle)]

lemma confidence_uniform128 :
    (analyzeCtVsMri uniform128 256 256).confidence = 1 - 1 / (1 + Real.exp 1) := by
  have hle : logistic (scoreOf uniform128 256 256) ≤ 0.5 := by
    rw [logistic_uniform128]
    have h2 := prob_uniform128_bounds.2
    linarith
  show (if (if logistic (scoreOf uniform128 256 256) > 0.5 then Modality.MRI
        else Modality.CT) = Modality.MRI then
      logistic (scoreOf uniform128 256 256)
    else 1 - logistic (scoreOf uniform128 256 256)) = 1 - 1 / (1 + Real.exp 1)
  rw [if_neg (not_lt.mpr hle)]
  simp only [reduceCtorEq, if_false]
  rw [logistic_uniform128]

/-- C1 (amended): on the 256×256 uniform gray (luma 128) input the pipeline
first normalizes the constant buffer to all zeros, so the histogram is a
single spike at bin `0`, all edge/texture features and the entropy are `0`,
the score is `-1.0 + 0·(-0.01) + 0 + 0 = -1.0`, `probMRI = logistic(-1) ≈
0.2689`, the label is `CT` and the confidence is `≈ 0.7311`. -/
theorem analyzeCtVsMri_uniform128 :
    computeHistogram (normalizeIntensity (toGrayscale uniform128)) =
        (List.range 256).map (fun i => if i = 0 then (1 : ℚ) else 0) ∧
      (featuresOf uniform128 256 256).histEntropy = 0 ∧
      (featuresOf uniform128 256 256).edgeMean = 0 ∧
      (featuresOf uniform128 256 256).edgeStd = 0 ∧
      (featuresOf uniform128 256 256).edgeP50 = 0 ∧
      (featuresOf uniform128 256 256).edgeP90 = 0 ∧
      (featuresOf uniform128 256 256).edgeP99 = 0 ∧
      (featuresOf uniform128 256 256).textureE = 0 ∧
      scoreOf uniform128 256 256 = -1 ∧
      logistic (scoreOf uniform128 256 256) = 1 / (1 + Real.exp 1) ∧
      |logistic (scoreOf uniform128 256 256) - 0.2689| ≤ 1 / 10000 ∧
      (analyzeCtVsMri uniform128 256 256).modality = Modality.CT ∧
      |(analyzeCtVsMri uniform128 256 256).confidence - 0.7311| ≤ 1 / 10000 := by
  refine ⟨?_, features_u_histEntropy, features_u_edgeMean, features_u_edgeStd,
    features_u_edgeP50, features_u_edgeP90, features_u_edgeP99, features_u_textureE,
    scoreOf_uniform128, logistic_uniform128, ?_, modality_uniform128, ?_⟩
  · rw [pipe_norm0]
    exact hist_norm0
  · rw [logistic_uniform128, abs_le]
    have h1 := prob_uniform128_bounds.1
    have h2 := prob_uniform128_bounds.2
    constructor
    · linarith
    · linarith
  · rw [confidence_uniform128, abs_le]
    have h1 := prob_uniform128_bounds.1
    have h2 := prob_uniform128_bounds.2
    constructor
    · linarith
    · linarith

/-- C1 counterexample: on the uniform-128 input the claim as written fails:
the histogram mass at bin 128 is `0` (the spike is at bin 0 instead), and
the classifier score is `-1.0`, not `-2.28`. -/
theorem analyzeCtVsMri_uniform128_counterexample :
    (computeHistogram (normalizeIntensity (toGrayscale uniform128))).getD 128 0 = 0 ∧
      scoreOf uniform128 256 256 ≠ -2.28 := by
  constructor
  · rw [pipe_norm0, hist_norm0]
    have hlt : (128 : ℕ) <
        ((List.range 256).map (fun i => if i = 0 then (1 : ℚ) else 0)).length := by
      simp
    rw [List.getD_eq_getElem _ _ hlt]
    simp
  · rw [scoreOf_uniform128]
    norm_num

end CtMri
